import Mathlib

/- Verification of the in-memory file-system core and terminal command
   interpreter of the IDE repository.  The data model follows
   src/types.ts; the functions are shallow embeddings of the tree and
   terminal logic of the main application component
   (src/unnamed/part_000).  Host I/O (the FileSystemHandle capability) is
   modelled by an explicit oracle record whose fields give the outcome of
   each awaited native call; JavaScript "substring" is modelled as a
   character-level take, and the locale string comparison of the
   ingestion sort as the standard string order. -/

set_option maxHeartbeats 1000000
set_option maxRecDepth 2000

inductive FileType where
  | FILE
  | FOLDER
deriving DecidableEq

/- FileSystemNode from src/types.ts.  The optional "handle" field (an
   opaque native capability) is modelled by a Bool recording its
   presence; "parentId" merges null and undefined into none. -/
inductive FSNode where
  | mk (id name : String) (ty : FileType) (content language : Option String)
       (children : Option (List FSNode)) (isOpen : Option Bool)
       (parentId : Option String) (handle : Bool)

def FSNode.id : FSNode → String
  | .mk i _ _ _ _ _ _ _ _ => i

def FSNode.name : FSNode → String
  | .mk _ n _ _ _ _ _ _ _ => n

def FSNode.ty : FSNode → FileType
  | .mk _ _ t _ _ _ _ _ _ => t

def FSNode.content : FSNode → Option String
  | .mk _ _ _ c _ _ _ _ _ => c

def FSNode.language : FSNode → Option String
  | .mk _ _ _ _ l _ _ _ _ => l

def FSNode.children : FSNode → Option (List FSNode)
  | .mk _ _ _ _ _ c _ _ _ => c

def FSNode.isOpen : FSNode → Option Bool
  | .mk _ _ _ _ _ _ o _ _ => o

def FSNode.parentId : FSNode → Option String
  | .mk _ _ _ _ _ _ _ p _ => p

def FSNode.handle : FSNode → Bool
  | .mk _ _ _ _ _ _ _ _ h => h

/- "node.children" with the undefined case collapsed to the empty list,
   as the optional-chaining call sites do. -/
def FSNode.childrenD (n : FSNode) : List FSNode := n.children.getD []

structure Tab where
  id : String
  title : String
  isDirty : Bool
deriving DecidableEq

/- Outcome oracle for the native FileSystemHandle operations awaited by
   one terminal command: getDirectoryHandle / getFileHandle with
   create true, removeEntry with recursive true, and getFile().text().
   An error value carries the stringified exception. -/
structure Host where
  createDir : Except String Unit
  createFile : Except String Unit
  removeEntry : Except String Unit
  readText : Except String String

structure IDEState where
  fileSystem : List FSNode
  termPath : List String
  openTabs : List Tab

/- findNode: depth-first lookup by id. -/
def findNode : List FSNode → String → Option FSNode
  | [], _ => none
  | .mk i nm ty ct lg none op pid hd :: rest, target =>
    if i = target then some (.mk i nm ty ct lg none op pid hd)
    else findNode rest target
  | .mk i nm ty ct lg (some cs) op pid hd :: rest, target =>
    if i = target then some (.mk i nm ty ct lg (some cs) op pid hd)
    else
      match findNode cs target with
      | some found => some found
      | none => findNode rest target

/- Inner search of getFileContent.  A node with a name match and defined
   content returns that content directly; a result bubbling up from a
   child search is returned only when JavaScript-truthy, so an empty
   string coming from a recursive call is dropped and the scan
   continues. -/
def findContent : List FSNode → String → Option String
  | [], _ => none
  | .mk _ nm _ ct _ none _ _ _ :: rest, fileName =>
    if nm = fileName ∧ ct ≠ none then ct
    else findContent rest fileName
  | .mk _ nm _ ct _ (some cs) _ _ _ :: rest, fileName =>
    if nm = fileName ∧ ct ≠ none then ct
    else
      match findContent cs fileName with
      | some found => if found = "" then findContent rest fileName else some found
      | none => findContent rest fileName

/- getFileContent: "findContent(fileSystem) || ''". -/
def getFileContent (fileSystem : List FSNode) (fileName : String) : String :=
  match findContent fileSystem fileName with
  | some s => if s = "" then "" else s
  | none => ""

/- getLanguageFromExtension: classification of a file name by its last
   dot-separated component, lower-cased. -/
def getLanguageFromExtension (filename : String) : String :=
  let ext := ((filename.splitOn ".").getLastD "").toLower
  match ext with
  | "js" | "mjs" => "javascript"
  | "ts" => "typescript"
  | "tsx" => "tsx"
  | "jsx" => "jsx"
  | "html" | "htm" => "html"
  | "css" => "css"
  | "scss" => "scss"
  | "less" => "less"
  | "json" => "json"
  | "py" => "python"
  | "java" | "class" => "java"
  | "c" | "h" => "c"
  | "cpp" => "cpp"
  | "cs" => "csharp"
  | "go" => "go"
  | "rs" => "rust"
  | "php" => "php"
  | "sql" => "sql"
  | "xml" => "xml"
  | "yaml" | "yml" => "yaml"
  | "svg" => "xml"
  | "md" | "txt" | "gitignore" | "env" => "text"
  | "csv" => "csv"
  | "ini" | "cfg" | "conf" => "ini"
  | "dll" | "sys" | "dat" | "tmp" => "system"
  | "doc" | "docx" | "rtf" | "odt" => "document"
  | "pdf" => "pdf"
  | "xls" | "xlsx" | "ods" => "spreadsheet"
  | "png" | "jpg" | "jpeg" | "gif" | "webp" | "bmp" | "ico" | "tiff" | "tif" => "image"
  | "mp3" | "wav" | "ogg" | "flac" | "aac" => "audio"
  | "mp4" | "webm" | "mkv" | "mov" | "avi" | "wmv" => "video"
  | "zip" | "rar" | "7z" | "tar" | "gz" | "tgz" => "archive"
  | "exe" | "msi" | "bin" | "app" | "deb" | "rpm" => "executable"
  | _ => "text"

/- isMediaOrBinary, with the "lang || ''" coercion of an undefined
   language. -/
def isMediaOrBinary (lang : Option String) : Bool :=
  (["image", "audio", "video", "pdf", "binary", "system", "document",
    "spreadsheet", "archive", "executable"]).contains (lang.getD "")

/- addNodeToTree: appends newNode to the children of every node whose id
   equals parentId (marking it open) and maps into children otherwise. -/
def addNodeToTree : List FSNode → String → FSNode → List FSNode
  | [], _, _ => []
  | .mk i nm ty ct lg none op pid hd :: rest, parentId, newNode =>
    (if i = parentId then FSNode.mk i nm ty ct lg (some [newNode]) (some true) pid hd
     else FSNode.mk i nm ty ct lg none op pid hd)
      :: addNodeToTree rest parentId newNode
  | .mk i nm ty ct lg (some cs) op pid hd :: rest, parentId, newNode =>
    (if i = parentId then FSNode.mk i nm ty ct lg (some (cs ++ [newNode])) (some true) pid hd
     else FSNode.mk i nm ty ct lg (some (addNodeToTree cs parentId newNode)) op pid hd)
      :: addNodeToTree rest parentId newNode

/- removeNodeFromTree: filters out every node whose id equals nodeId and
   recurses into the children of the survivors. -/
def removeNodeFromTree : List FSNode → String → List FSNode
  | [], _ => []
  | .mk i nm ty ct lg none op pid hd :: rest, nodeId =>
    if i = nodeId then removeNodeFromTree rest nodeId
    else FSNode.mk i nm ty ct lg none op pid hd :: removeNodeFromTree rest nodeId
  | .mk i nm ty ct lg (some cs) op pid hd :: rest, nodeId =>
    if i = nodeId then removeNodeFromTree rest nodeId
    else FSNode.mk i nm ty ct lg (some (removeNodeFromTree cs nodeId)) op pid hd
           :: removeNodeFromTree rest nodeId

/- currentDirId / currentDirNode of handleTerminalCommand: the last entry
   of the working-directory id stack, resolved through findNode. -/
def currentDirNode (st : IDEState) : Option FSNode :=
  match st.termPath.getLast? with
  | none => none
  | some i => findNode st.fileSystem i

/- "currentDirNode?.children" -/
def optChildren : Option FSNode → List FSNode
  | none => []
  | some n => n.childrenD

/- "currentDirNode?.handle" -/
def optHandle : Option FSNode → Bool
  | none => false
  | some n => n.handle

/- JavaScript truthiness of the optional command argument. -/
def strTruthy : Option String → Bool
  | none => false
  | some s => !(s == "")

/- ls branch: stored children order, folders bracketed, joined by two
   spaces; empty string when the directory or its children list is
   absent. -/
def lsCmd (st : IDEState) (curOpt : Option FSNode) : String × IDEState :=
  match curOpt with
  | none => ("", st)
  | some cur =>
    match cur.children with
    | none => ("", st)
    | some cs =>
      (String.intercalate "  "
        (cs.map (fun c => if c.ty = FileType.FOLDER then "[" ++ c.name ++ "]" else c.name)), st)

/- cd branch. -/
def cdCmd (st : IDEState) (curOpt : Option FSNode) (arg : Option String) : String × IDEState :=
  match arg with
  | none => ("", st)
  | some a =>
    if a = "" then ("", st)
    else if a = ".." then
      if st.termPath.length > 1 then ("", { st with termPath := st.termPath.dropLast })
      else ("Already at root", st)
    else
      match (optChildren curOpt).find? (fun c => c.name == a && decide (c.ty = FileType.FOLDER)) with
      | some target => ("", { st with termPath := st.termPath ++ [target.id] })
      | none => ("cd: no such file or directory: " ++ a, st)

/- mkdir branch: native create first when the directory has a handle; on
   native failure the command returns the error string and performs no
   tree mutation; without a handle a virtual folder is created. -/
def mkdirCmd (st : IDEState) (h : Host) (curOpt : Option FSNode) (arg : Option String) :
    String × IDEState :=
  match arg with
  | none => ("usage: mkdir <directory_name>", st)
  | some a =>
    if a = "" then ("usage: mkdir <directory_name>", st)
    else
      match curOpt with
      | none => ("Error", st)
      | some cur =>
        if cur.handle then
          match h.createDir with
          | .ok _ =>
            let newFolderNode : FSNode :=
              FSNode.mk (cur.id ++ "_" ++ a) a FileType.FOLDER none none (some [])
                (some false) (some cur.id) true
            ("Directory '" ++ a ++ "' created.",
             { st with fileSystem := addNodeToTree st.fileSystem cur.id newFolderNode })
          | .error e => ("Error creating directory on disk: " ++ e, st)
        else
          let newFolder : FSNode :=
            FSNode.mk (cur.id ++ "_" ++ a) a FileType.FOLDER none none (some [])
              (some false) (some cur.id) false
          ("Virtual directory '" ++ a ++ "' created.",
           { st with fileSystem := addNodeToTree st.fileSystem cur.id newFolder })

/- touch / code branch. -/
def touchCmd (st : IDEState) (h : Host) (curOpt : Option FSNode) (arg : Option String) :
    String × IDEState :=
  match arg with
  | none => ("usage: touch <filename>", st)
  | some a =>
    if a = "" then ("usage: touch <filename>", st)
    else
      match curOpt with
      | none => ("Error", st)
      | some cur =>
        if cur.handle then
          match h.createFile with
          | .ok _ =>
            let newFileNode : FSNode :=
              FSNode.mk (cur.id ++ "_" ++ a) a FileType.FILE (some "")
                (some (getLanguageFromExtension a)) none none (some cur.id) true
            ("File '" ++ a ++ "' created.",
             { st with fileSystem := addNodeToTree st.fileSystem cur.id newFileNode })
          | .error e => ("Error creating file on disk: " ++ e, st)
        else
          let newFile : FSNode :=
            FSNode.mk (cur.id ++ "_" ++ a) a FileType.FILE (some "")
              (some (getLanguageFromExtension a)) none none (some cur.id) false
          ("Virtual file '" ++ a ++ "' created.",
           { st with fileSystem := addNodeToTree st.fileSystem cur.id newFile })

/- rm branch: name lookup among the current children; with a native
   handle a failing removeEntry aborts before any tree mutation;
   otherwise the subtree is removed and the tab of the removed id (and
   only that id) is evicted. -/
def rmCmd (st : IDEState) (h : Host) (curOpt : Option FSNode) (arg : Option String) :
    String × IDEState :=
  match arg with
  | none => ("usage: rm <filename>", st)
  | some a =>
    if a = "" then ("usage: rm <filename>", st)
    else
      match (optChildren curOpt).find? (fun c => c.name == a) with
      | none => ("rm: " ++ a ++ ": No such file or directory", st)
      | some target =>
        if optHandle curOpt then
          match h.removeEntry with
          | .ok _ =>
            ("", { st with fileSystem := removeNodeFromTree st.fileSystem target.id,
                           openTabs := st.openTabs.filter (fun t => !(t.id == target.id)) })
          | .error e => ("Error deleting from disk: " ++ e, st)
        else
          ("", { st with fileSystem := removeNodeFromTree st.fileSystem target.id,
                         openTabs := st.openTabs.filter (fun t => !(t.id == target.id)) })

/- cat branch: FILE-only lookup; media or binary classification yields a
   bracketed label; a handle-backed node without resident content is
   read through the host and truncated to 500 characters with no
   ellipsis; resident content is truncated to 500 characters with "..."
   appended exactly when longer. -/
def catCmd (st : IDEState) (h : Host) (curOpt : Option FSNode) (arg : Option String) :
    String × IDEState :=
  match arg with
  | none => ("Usage: cat <filename>", st)
  | some a =>
    if a = "" then ("Usage: cat <filename>", st)
    else
      match (optChildren curOpt).find? (fun c => c.name == a && decide (c.ty = FileType.FILE)) with
      | none => ("File not found: " ++ a, st)
      | some f =>
        if isMediaOrBinary f.language then
          ("[" ++ ((f.language.map String.toUpper).getD "undefined") ++ " File]", st)
        else if f.handle ∧ f.content = none then
          match h.readText with
          | .ok t => (t.take 500, st)
          | .error _ => ("Error reading file", st)
        else
          let content := f.content.getD ""
          (content.take 500 ++ (if content.length > 500 then "..." else ""), st)

/- npm branch. -/
def npmOut (arg : Option String) : String :=
  if arg = some "install" ∨ arg = some "i" then "added 142 packages in 2s"
  else "npm command not fully simulated."

/- Dispatch of handleTerminalCommand, with the locals of the source
   (command, arg, currentDirNode) hoisted into parameters: a lost current
   directory aborts every command except ls, then the first token selects
   the branch. -/
def execBody (st : IDEState) (h : Host) (curOpt : Option FSNode) (command : String)
    (arg : Option String) (parts : List String) : String × IDEState :=
  if curOpt.isNone && !(command == "ls") then ("Error: Current directory lost.", st)
  else if command == "ls" then lsCmd st curOpt
  else if command == "pwd" then ("/" ++ String.intercalate "/" st.termPath, st)
  else if command == "cd" then cdCmd st curOpt arg
  else if command == "mkdir" then mkdirCmd st h curOpt arg
  else if command == "touch" || command == "code" then touchCmd st h curOpt arg
  else if command == "rm" then rmCmd st h curOpt arg
  else if command == "cat" then catCmd st h curOpt arg
  else if command == "clear" then ("", st)
  else if command == "npm" then (npmOut arg, st)
  else if command == "echo" then (String.intercalate " " parts.tail, st)
  else ("command not found: " ++ command, st)

/- handleTerminalCommand after tokenization: the command is the first
   token, the argument the second. -/
def execParts (st : IDEState) (h : Host) (parts : List String) : String × IDEState :=
  execBody st h (currentDirNode st) (parts.headD "") parts[1]? parts

/- Full command entry point: whitespace tokenization of the input line
   ("cmd.trim().split(' ')"), then dispatch. -/
def handleTerminalCommand (st : IDEState) (h : Host) (cmd : String) : String × IDEState :=
  execParts st h (cmd.trim.splitOn " ")

/- Comparator of processDirectoryHandle: folders before files, same kind
   ordered by name (localeCompare modelled as the standard string
   order); the JavaScript sort is stable, modelled by mergeSort. -/
def nodeLE (a b : FSNode) : Bool :=
  if a.ty = b.ty then decide (a.name ≤ b.name) else decide (a.ty = FileType.FOLDER)

def sortNodes (ns : List FSNode) : List FSNode := ns.mergeSort nodeLE

/- One entry of a native directory listing, as enumerated through the
   directory handle. -/
inductive HostEntry where
  | file (name : String)
  | dir (name : String) (entries : List HostEntry)

/- Id assignment of processDirectoryHandle:
   "parentId ? parentId + '_' + name : name" with JavaScript falsiness of
   null and of the empty string. -/
def entryId (parentId : Option String) (nm : String) : String :=
  match parentId with
  | none => nm
  | some p => if p = "" then nm else p ++ "_" ++ nm

/- Node construction of processDirectoryHandle before the final sort:
   files carry a handle and a language but no content; directories carry
   their recursively processed (and sorted) children. -/
def processEntries : List HostEntry → Option String → List FSNode
  | [], _ => []
  | .file nm :: rest, parentId =>
    FSNode.mk (entryId parentId nm) nm FileType.FILE none
        (some (getLanguageFromExtension nm)) none none parentId true
      :: processEntries rest parentId
  | .dir nm sub :: rest, parentId =>
    FSNode.mk (entryId parentId nm) nm FileType.FOLDER none none
        (some (sortNodes (processEntries sub (some (entryId parentId nm)))))
        (some false) parentId true
      :: processEntries rest parentId

def processDirectoryHandle (entries : List HostEntry) (parentId : Option String) :
    List FSNode :=
  sortNodes (processEntries entries parentId)

/- One entry of the fallback flat file list.  The relative path is
   modelled as its forward-slash segments (the host interface delivers
   it as a slash-separated string); an empty list models a flat
   selection without webkitRelativePath.  objectUrl stands for
   URL.createObjectURL of the file and textResult for the awaited
   file.text(), with none modelling a decode failure. -/
structure InputFile where
  name : String
  path : List String
  objectUrl : String
  textResult : Option String

def inputContent (f : InputFile) : String :=
  if isMediaOrBinary (some (getLanguageFromExtension f.name)) then f.objectUrl
  else
    match f.textResult with
    | some t => t
    | none => "Binary file cannot be displayed."

/- Id rule of getOrCreateFolder: a folder directly under root gets the
   bare name as id, deeper folders parentId + "_" + name. -/
def getOrCreateId (parentId nm : String) : String :=
  if parentId = "root" then nm else parentId ++ "_" ++ nm

/- Pure form of the mutable walk of processInputFiles for one file with a
   relative path: walk the folder segments, reusing the first FOLDER
   child of matching name or appending a fresh one, and append the FILE
   node at the deepest level. -/
def insertIntoNodes : List FSNode → String → List String → String → String → String →
    List FSNode
  | ns, parentId, [], fileName, content, lang =>
    ns ++ [FSNode.mk (parentId ++ "_" ++ fileName) fileName FileType.FILE (some content)
             (some lang) none none (some parentId) false]
  | [], parentId, folderName :: restParts, fileName, content, lang =>
    [FSNode.mk (getOrCreateId parentId folderName) folderName FileType.FOLDER none none
       (some (insertIntoNodes [] (getOrCreateId parentId folderName) restParts fileName
                content lang))
       (some false) (some parentId) false]
  | .mk i nm ty ct lg ch op pid hd :: tail, parentId, folderName :: restParts,
      fileName, content, lang =>
    if nm = folderName ∧ ty = FileType.FOLDER then
      FSNode.mk i nm ty ct lg
          (some (insertIntoNodes (ch.getD []) i restParts fileName content lang)) op pid hd
        :: tail
    else
      FSNode.mk i nm ty ct lg ch op pid hd
        :: insertIntoNodes tail parentId (folderName :: restParts) fileName content lang
termination_by ns _ parts _ _ _ => (parts.length, ns.length)

/- Loop body of processInputFiles: a pathless file is appended at top
   level with its bare name as id; a file with a relative path is
   inserted along its folder segments. -/
def processOneInput (acc : List FSNode) (f : InputFile) : List FSNode :=
  let lang := getLanguageFromExtension f.name
  let content := inputContent f
  match f.path with
  | [] =>
    acc ++ [FSNode.mk f.name f.name FileType.FILE (some content) (some lang) none none
              (some "root") false]
  | _ =>
    insertIntoNodes acc "root" f.path.dropLast (f.path.getLastD "") content lang

def processInputFilesChildren (files : List InputFile) : List FSNode :=
  files.foldl processOneInput []

/- processInputFiles: the reconstructed children wrapped in the root
   node. -/
def processInputFiles (files : List InputFile) : List FSNode :=
  [FSNode.mk "root" "Opened Project" FileType.FOLDER none none
     (some (processInputFilesChildren files)) (some true) none false]

/- Prompt name of the current directory: the id tail after the last
   underscore ("termPath[termPath.length - 1].split('_').pop()"). -/
def currentTermDirName (st : IDEState) : String :=
  let raw := ((st.termPath.getLastD "").splitOn "_").getLastD ""
  if raw = "" then "project" else raw

/- Preorder id listing of a forest of nodes. -/
def collectIds : List FSNode → List String
  | [] => []
  | .mk i _ _ _ _ none _ _ _ :: rest => i :: collectIds rest
  | .mk i _ _ _ _ (some cs) _ _ _ :: rest => i :: (collectIds cs ++ collectIds rest)

def collectIdsNode (n : FSNode) : List String := n.id :: collectIds n.childrenD

/- Preorder node listing of a forest. -/
def allNodes : List FSNode → List FSNode
  | [] => []
  | .mk i nm ty ct lg none op pid hd :: rest =>
    FSNode.mk i nm ty ct lg none op pid hd :: allNodes rest
  | .mk i nm ty ct lg (some cs) op pid hd :: rest =>
    FSNode.mk i nm ty ct lg (some cs) op pid hd :: (allNodes cs ++ allNodes rest)

/- Structural well-formedness: a node with a children list is a FOLDER
   whose children all carry its id as parentId, recursively.  Together
   with id uniqueness this is the spec invariant that every non-root
   node names an existing FOLDER parent that lists it. -/
def treeNodesOk : List FSNode → Bool
  | [] => true
  | .mk _ _ _ _ _ none _ _ _ :: rest => treeNodesOk rest
  | .mk i _ ty _ _ (some cs) _ _ _ :: rest =>
    decide (ty = FileType.FOLDER) && cs.all (fun c => c.parentId == some i) &&
      treeNodesOk cs && treeNodesOk rest

/- Every node carrying the given id is a FOLDER. -/
def allIdFolder : List FSNode → String → Bool
  | [], _ => true
  | .mk i _ ty _ _ none _ _ _ :: rest, pid =>
    (!(i == pid) || decide (ty = FileType.FOLDER)) && allIdFolder rest pid
  | .mk i _ ty _ _ (some cs) _ _ _ :: rest, pid =>
    (!(i == pid) || decide (ty = FileType.FOLDER)) && allIdFolder cs pid &&
      allIdFolder rest pid

def uniqueIds (ns : List FSNode) : Prop := (collectIds ns).Nodup

def treeInv (ns : List FSNode) : Prop := uniqueIds ns ∧ treeNodesOk ns = true

/- One tokenized terminal command together with the host oracle for the
   native calls it may await. -/
abbrev TermCmd := List String × Host

def execSeq (st : IDEState) : List TermCmd → IDEState
  | [] => st
  | (p, h) :: rest => execSeq (execParts st h p).2 rest

/- Side condition of the invariant-preservation theorem: when a create
   command (mkdir, touch, code) runs with a resolvable current
   directory, every tree node carrying the current directory id must be
   a FOLDER and the deterministic id of the new child must not already
   occur in the tree. -/
def createOkCond (st : IDEState) (parts : List String) : Bool :=
  let command := parts.headD ""
  let arg := parts[1]?
  if (command == "mkdir" || command == "touch" || command == "code") && strTruthy arg then
    match currentDirNode st with
    | none => true
    | some cur =>
      allIdFolder st.fileSystem cur.id &&
        decide ((cur.id ++ "_" ++ arg.getD "") ∉ collectIds st.fileSystem)
  else true

def okSeq : IDEState → List TermCmd → Bool
  | _, [] => true
  | st, (p, h) :: rest => createOkCond st p && okSeq (execParts st h p).2 rest

/- First depth-first name match with defined content, without the
   truthiness filtering of findContent: the content the spec sentence
   about contentByExactName describes. -/
def firstMatch : List FSNode → String → Option String
  | [], _ => none
  | .mk _ nm _ ct _ none _ _ _ :: rest, fileName =>
    if nm = fileName ∧ ct ≠ none then ct
    else firstMatch rest fileName
  | .mk _ nm _ ct _ (some cs) _ _ _ :: rest, fileName =>
    if nm = fileName ∧ ct ≠ none then ct
    else
      match firstMatch cs fileName with
      | some found => some found
      | none => firstMatch rest fileName

/- Checker of the native-enumeration id scheme: every node id is the
   parent id, an underscore and the local name, recursively. -/
def nativeIdsOk : String → List FSNode → Bool
  | _, [] => true
  | pid, .mk i nm _ _ _ none _ _ _ :: rest =>
    (i == pid ++ "_" ++ nm) && nativeIdsOk pid rest
  | pid, .mk i nm _ _ _ (some cs) _ _ _ :: rest =>
    (i == pid ++ "_" ++ nm) && nativeIdsOk (pid ++ "_" ++ nm) cs && nativeIdsOk pid rest

/- Checker of the flat-ingestion id scheme: a FOLDER directly under root
   carries the bare name as id, a FILE directly under root the bare name
   or root_name (pathless and path-carrying creation respectively), and
   every deeper node parentId + "_" + name. -/
def flatIdsOk : String → List FSNode → Bool
  | _, [] => true
  | pid, .mk i nm ty _ _ none _ _ _ :: rest =>
    flatIdOne pid i nm ty && flatIdsOk pid rest
  | pid, .mk i nm ty _ _ (some cs) _ _ _ :: rest =>
    flatIdOne pid i nm ty && flatIdsOk i cs && flatIdsOk pid rest
where
  flatIdOne (pid i nm : String) (ty : FileType) : Bool :=
    if pid = "root" then
      match ty with
      | FileType.FOLDER => i == nm
      | FileType.FILE => i == nm || i == "root_" ++ nm
    else i == pid ++ "_" ++ nm

/- Induction over forests of nodes: the nested List makes the derived
   recursor awkward, so induction descends explicitly into childrenD and
   the tail, justified by the size measure. -/
def forestInd (P : List FSNode → Prop) (hnil : P [])
    (hcons : ∀ n rest, P n.childrenD → P rest → P (n :: rest)) :
    ∀ ns, P ns
  | [] => hnil
  | n :: rest =>
    hcons n rest (forestInd P hnil hcons n.childrenD) (forestInd P hnil hcons rest)
termination_by ns => sizeOf ns
decreasing_by
  · rcases n with ⟨i, nm, ty, ct, lg, ch, op, pid, hd⟩
    rcases ch with _ | cs <;> simp [FSNode.childrenD, FSNode.children] <;> omega
  · simp

def hostEntriesInd (P : List HostEntry → Prop) (hnil : P [])
    (hfile : ∀ nm rest, P rest → P (.file nm :: rest))
    (hdir : ∀ nm sub rest, P sub → P rest → P (.dir nm sub :: rest)) :
    ∀ es, P es
  | [] => hnil
  | .file nm :: rest => hfile nm rest (hostEntriesInd P hnil hfile hdir rest)
  | .dir nm sub :: rest =>
    hdir nm sub rest (hostEntriesInd P hnil hfile hdir sub)
      (hostEntriesInd P hnil hfile hdir rest)
termination_by es => sizeOf es
decreasing_by all_goals simp <;> omega

def hostOk : Host := ⟨Except.ok (), Except.ok (), Except.ok (), Except.ok ""⟩

def hostFailAll : Host :=
  ⟨Except.error "boom", Except.error "boom", Except.error "boom", Except.error "boom"⟩

def rootEmptyVirtual : FSNode :=
  FSNode.mk "root" "Project" FileType.FOLDER none none (some []) (some true) none false

def stVirt : IDEState := ⟨[rootEmptyVirtual], ["root"], []⟩

def fileNative : FSNode :=
  FSNode.mk "root_a.txt" "a.txt" FileType.FILE none (some "text") none none (some "root") true

def rootNative : FSNode :=
  FSNode.mk "root" "Project" FileType.FOLDER none none (some [fileNative]) (some true)
    none true

def stNative : IDEState := ⟨[rootNative], ["root"], []⟩

def folderSrc : FSNode :=
  FSNode.mk "root_src" "src" FileType.FOLDER none none (some []) (some false)
    (some "root") false

def rootWithSrc : FSNode :=
  FSNode.mk "root" "Project" FileType.FOLDER none none (some [folderSrc]) (some true)
    none false

def stInSrc : IDEState := ⟨[rootWithSrc], ["root", "root_src"], []⟩

def folderDocs : FSNode :=
  FSNode.mk "root_docs" "docs" FileType.FOLDER none none (some []) (some false)
    (some "root") false

def rootWithDocs : FSNode :=
  FSNode.mk "root" "Project" FileType.FOLDER none none (some [folderDocs]) (some true)
    none false

def stWithDocs : IDEState := ⟨[rootWithDocs], ["root"], []⟩

def fileNodeA : FSNode :=
  FSNode.mk "root_a" "a" FileType.FILE (some "") (some "text") none none (some "root") false

def folderNodeB : FSNode :=
  FSNode.mk "root_b" "b" FileType.FOLDER none none (some []) (some false) (some "root") false

def rootSorted : FSNode :=
  FSNode.mk "root" "Project" FileType.FOLDER none none (some [folderNodeB, fileNodeA])
    (some true) none false

def stSorted : IDEState := ⟨[rootSorted], ["root"], []⟩

def rootUnsorted : FSNode :=
  FSNode.mk "root" "Project" FileType.FOLDER none none (some [fileNodeA, folderNodeB])
    (some true) none false

def stUnsorted : IDEState := ⟨[rootUnsorted], ["root"], []⟩

def fileResident : FSNode :=
  FSNode.mk "root_r.txt" "r.txt" FileType.FILE (some "hello") (some "text") none none
    (some "root") false

def fileLazy : FSNode :=
  FSNode.mk "root_l.txt" "l.txt" FileType.FILE none (some "text") none none
    (some "root") true

def rootCat : FSNode :=
  FSNode.mk "root" "Project" FileType.FOLDER none none (some [fileResident, fileLazy])
    (some true) none false

def stCat : IDEState := ⟨[rootCat], ["root"], []⟩

def hostReadShort : Host := ⟨Except.ok (), Except.ok (), Except.ok (), Except.ok "abc"⟩

def hostReadLong : Host :=
  ⟨Except.ok (), Except.ok (), Except.ok (), Except.ok (String.mk (List.replicate 501 'a'))⟩

def stLazyOnly : IDEState :=
  ⟨[FSNode.mk "root" "Project" FileType.FOLDER none none (some [fileLazy]) (some true)
      none false], ["root"], []⟩

def fileInFolder : FSNode :=
  FSNode.mk "root_F_c.txt" "c.txt" FileType.FILE (some "hi") (some "text") none none
    (some "root_F") false

def folderF : FSNode :=
  FSNode.mk "root_F" "F" FileType.FOLDER none none (some [fileInFolder]) (some false)
    (some "root") false

def rootWithF : FSNode :=
  FSNode.mk "root" "Project" FileType.FOLDER none none (some [folderF]) (some true)
    none false

def stWithF : IDEState :=
  ⟨[rootWithF], ["root"], [Tab.mk "root_F_c.txt" "c.txt" false]⟩

def fileHello : FSNode :=
  FSNode.mk "root_x" "x" FileType.FILE (some "hi there") (some "text") none none
    (some "root") false

def fsHello : List FSNode :=
  [FSNode.mk "root" "Project" FileType.FOLDER none none (some [fileHello]) (some true)
    none false]

def fileXEmpty : FSNode :=
  FSNode.mk "root_A_x" "x" FileType.FILE (some "") (some "text") none none
    (some "root_A") false

def folderA : FSNode :=
  FSNode.mk "root_A" "A" FileType.FOLDER none none (some [fileXEmpty]) (some false)
    (some "root") false

def fileXLater : FSNode :=
  FSNode.mk "root_x" "x" FileType.FILE (some "later") (some "text") none none
    (some "root") false

def fsC9 : List FSNode :=
  [FSNode.mk "root" "Project" FileType.FOLDER none none (some [folderA, fileXLater])
    (some true) none false]

theorem collectIds_cons (n : FSNode) (rest : List FSNode) :
    collectIds (n :: rest) = collectIdsNode n ++ collectIds rest := by
  rcases n with ⟨i, nm, ty, ct, lg, ch, op, pid, hd⟩
  rcases ch with _ | cs <;>
    simp [collectIds, collectIdsNode, FSNode.id, FSNode.childrenD, FSNode.children]

theorem allNodes_cons (n : FSNode) (rest : List FSNode) :
    allNodes (n :: rest) = n :: (allNodes n.childrenD ++ allNodes rest) := by
  rcases n with ⟨i, nm, ty, ct, lg, ch, op, pid, hd⟩
  rcases ch with _ | cs <;> simp [allNodes, FSNode.childrenD, FSNode.children]

theorem collectIds_eq_map (ns : List FSNode) :
    collectIds ns = (allNodes ns).map FSNode.id := by
  induction ns using forestInd with
  | hnil => simp [collectIds, allNodes]
  | hcons n rest ihc ihr =>
    rcases n with ⟨i, nm, ty, ct, lg, ch, op, pid, hd⟩
    simp only [FSNode.childrenD, FSNode.children] at ihc
    rw [collectIds_cons, allNodes_cons]
    simp [collectIdsNode, ihc, ihr, FSNode.id, FSNode.childrenD, FSNode.children]

theorem collectIds_append (l1 l2 : List FSNode) :
    collectIds (l1 ++ l2) = collectIds l1 ++ collectIds l2 := by
  induction l1 with
  | nil => simp [collectIds]
  | cons n rest ih =>
    rw [List.cons_append, collectIds_cons, collectIds_cons, ih, List.append_assoc]

theorem collectIds_single (m : FSNode) : collectIds [m] = collectIdsNode m := by
  rw [collectIds_cons]
  simp [collectIds]

theorem collectIds_remove_sublist (ns : List FSNode) :
    ∀ i, (collectIds (removeNodeFromTree ns i)).Sublist (collectIds ns) := by
  induction ns using forestInd with
  | hnil => intro i; simp [removeNodeFromTree]
  | hcons n rest ihc ihr =>
    intro i
    rcases n with ⟨nid, nm, ty, ct, lg, ch, op, pid, hd⟩
    simp only [FSNode.childrenD, FSNode.children] at ihc
    rcases ch with _ | cs
    · by_cases hi : nid = i
      · rw [removeNodeFromTree, if_pos hi]
        simp only [collectIds]
        exact (ihr i).cons _
      · rw [removeNodeFromTree, if_neg hi]
        simp only [collectIds]
        exact (ihr i).cons₂ _
    · by_cases hi : nid = i
      · rw [removeNodeFromTree, if_pos hi]
        simp only [collectIds]
        exact ((ihr i).trans (List.sublist_append_right _ _)).cons _
      · rw [removeNodeFromTree, if_neg hi]
        simp only [collectIds, Option.getD_some] at *
        exact ((ihc i).append (ihr i)).cons₂ _

theorem nodup_remove (ns : List FSNode) (i : String) (h : (collectIds ns).Nodup) :
    (collectIds (removeNodeFromTree ns i)).Nodup :=
  (collectIds_remove_sublist ns i).nodup h

theorem remove_all_parentId (p : Option String) (i : String) :
    ∀ cs : List FSNode, cs.all (fun c => c.parentId == p) = true →
      (removeNodeFromTree cs i).all (fun c => c.parentId == p) = true := by
  intro cs
  induction cs with
  | nil => simp [removeNodeFromTree]
  | cons n rest ih =>
    rcases n with ⟨nid, nm, ty, ct, lg, ch, op, pid, hd⟩
    rcases ch with _ | cs' <;> by_cases hi : nid = i <;>
      simp only [removeNodeFromTree, if_pos, if_neg, hi, ite_true, ite_false,
        List.all_cons, Bool.and_eq_true] <;> intro h
    · exact ih h.2
    · exact ⟨h.1, ih h.2⟩
    · exact ih h.2
    · exact ⟨h.1, ih h.2⟩

theorem treeNodesOk_remove (ns : List FSNode) :
    ∀ i, treeNodesOk ns = true → treeNodesOk (removeNodeFromTree ns i) = true := by
  induction ns using forestInd with
  | hnil => intro i h; simpa [removeNodeFromTree] using h
  | hcons n rest ihc ihr =>
    intro i h
    rcases n with ⟨nid, nm, ty, ct, lg, ch, op, pid, hd⟩
    simp only [FSNode.childrenD, FSNode.children] at ihc
    rcases ch with _ | cs
    · rw [treeNodesOk] at h
      by_cases hi : nid = i
      · rw [removeNodeFromTree, if_pos hi]
        exact ihr i h
      · rw [removeNodeFromTree, if_neg hi, treeNodesOk]
        exact ihr i h
    · rw [treeNodesOk] at h
      simp only [Bool.and_eq_true] at h
      obtain ⟨⟨⟨hty, hall⟩, hcs⟩, hrest⟩ := h
      by_cases hi : nid = i
      · rw [removeNodeFromTree, if_pos hi]
        exact ihr i hrest
      · rw [removeNodeFromTree, if_neg hi, treeNodesOk]
        simp only [Bool.and_eq_true]
        exact ⟨⟨⟨hty, remove_all_parentId _ _ _ hall⟩, ihc i hcs⟩, ihr i hrest⟩

theorem count_collectIds_add (m : FSNode) (x : String) :
    ∀ ns pid, (collectIds (addNodeToTree ns pid m)).count x ≤
      (collectIds ns).count x + (collectIds ns).count pid * (collectIds [m]).count x := by
  intro ns
  induction ns using forestInd with
  | hnil => intro pid; simp [addNodeToTree, collectIds]
  | hcons n rest ihc ihr =>
    intro pid
    rcases n with ⟨nid, nm, ty, ct, lg, ch, op, pid0, hd⟩
    simp only [FSNode.childrenD, FSNode.children] at ihc
    rcases ch with _ | cs <;>
      simp only [Option.getD_some, Option.getD_none] at ihc
    · by_cases hi : nid = pid
      · subst hi
        rw [addNodeToTree, if_pos rfl]
        simp only [collectIds, collectIds_append, List.count_cons, List.count_append,
          beq_self_eq_true, if_true, Nat.add_mul, Nat.one_mul]
        have h := ihr nid
        omega
      · have hb : (nid == pid) = false := by simp [hi]
        have hb2 : (pid == nid) = false := by simp [Ne.symm hi]
        rw [addNodeToTree, if_neg hi]
        simp only [collectIds, collectIds_append, List.count_cons, List.count_append,
          hb, hb2, Bool.false_eq_true, if_false, Nat.add_mul, Nat.one_mul]
        have h := ihr pid
        omega
    · by_cases hi : nid = pid
      · subst hi
        rw [addNodeToTree, if_pos rfl]
        simp only [collectIds, collectIds_append, List.count_cons, List.count_append,
          beq_self_eq_true, if_true, Nat.add_mul, Nat.one_mul]
        have h := ihr nid
        omega
      · have hb : (nid == pid) = false := by simp [hi]
        have hb2 : (pid == nid) = false := by simp [Ne.symm hi]
        rw [addNodeToTree, if_neg hi]
        simp only [collectIds, collectIds_append, List.count_cons, List.count_append,
          hb, hb2, Bool.false_eq_true, if_false, Nat.add_mul, Nat.one_mul]
        have h1 := ihc pid
        have h2 := ihr pid
        omega

theorem nodup_add (ns : List FSNode) (pid : String) (m : FSNode)
    (hnd : (collectIds ns).Nodup) (hfresh : m.id ∉ collectIds ns)
    (hleaf : collectIdsNode m = [m.id]) :
    (collectIds (addNodeToTree ns pid m)).Nodup := by
  have hm : collectIds [m] = [m.id] := by rw [collectIds_single, hleaf]
  rw [List.nodup_iff_count_le_one] at hnd ⊢
  intro x
  have h := count_collectIds_add m x ns pid
  rw [hm] at h
  by_cases hx : x = m.id
  · subst hx
    have h0 : (collectIds ns).count m.id = 0 := List.count_eq_zero.mpr hfresh
    have h1 : List.count m.id [m.id] = 1 := by simp
    have h2 : (collectIds ns).count pid ≤ 1 := hnd pid
    rw [h1, Nat.mul_one, h0, Nat.zero_add] at h
    exact h.trans h2
  · have h1 : List.count x [m.id] = 0 := by
      rw [List.count_eq_zero, List.mem_singleton]
      exact hx
    rw [h1, Nat.mul_zero, Nat.add_zero] at h
    exact h.trans (hnd x)

theorem treeNodesOk_append (l1 l2 : List FSNode) :
    treeNodesOk (l1 ++ l2) = (treeNodesOk l1 && treeNodesOk l2) := by
  induction l1 with
  | nil => simp [treeNodesOk]
  | cons n rest ih =>
    rcases n with ⟨nid, nm, ty, ct, lg, ch, op, pid, hd⟩
    rcases ch with _ | cs <;> simp [treeNodesOk, ih, Bool.and_assoc]

theorem add_all_parentId (p : Option String) (pid : String) (m : FSNode) :
    ∀ cs : List FSNode, cs.all (fun c => c.parentId == p) = true →
      (addNodeToTree cs pid m).all (fun c => c.parentId == p) = true := by
  intro cs
  induction cs with
  | nil => simp [addNodeToTree]
  | cons n rest ih =>
    rcases n with ⟨nid, nm, ty, ct, lg, ch, op, pid0, hd⟩
    rcases ch with _ | cs' <;> by_cases hi : nid = pid <;>
      simp only [addNodeToTree, if_pos, if_neg, hi, ite_true, ite_false,
        List.all_cons, Bool.and_eq_true] <;>
      intro h <;> exact ⟨h.1, ih h.2⟩

theorem treeNodesOk_add (m : FSNode) (pid : String)
    (hm : m.parentId = some pid)
    (hmc : m.children = none ∨ (m.children = some [] ∧ m.ty = FileType.FOLDER)) :
    ∀ ns, treeNodesOk ns = true → allIdFolder ns pid = true →
      treeNodesOk (addNodeToTree ns pid m) = true := by
  have hok : treeNodesOk [m] = true := by
    rcases m with ⟨mi, mn, mt, mc, ml, mch, mo, mp, mh⟩
    rcases hmc with hc | ⟨hc, hty⟩ <;>
      simp only [FSNode.children] at hc <;> subst hc <;>
      simp_all [treeNodesOk, FSNode.ty]
  intro ns
  induction ns using forestInd with
  | hnil => intro _ _; simp [addNodeToTree, treeNodesOk]
  | hcons n rest ihc ihr =>
    intro hok2 hfold
    rcases n with ⟨nid, nm, ty, ct, lg, ch, op, pid0, hd⟩
    simp only [FSNode.childrenD, FSNode.children] at ihc
    rcases ch with _ | cs <;> simp only [Option.getD_some, Option.getD_none] at ihc
    · rw [treeNodesOk] at hok2
      rw [allIdFolder] at hfold
      simp only [Bool.and_eq_true] at hfold
      obtain ⟨hhead, hrest⟩ := hfold
      by_cases hi : nid = pid
      · subst hi
        rw [addNodeToTree, if_pos rfl, treeNodesOk]
        simp only [Bool.and_eq_true]
        refine ⟨⟨⟨?_, ?_⟩, hok⟩, ihr hok2 hrest⟩
        · simp only [beq_self_eq_true, Bool.not_true, Bool.false_or] at hhead
          exact hhead
        · simp only [List.all_cons, List.all_nil, Bool.and_true, hm, beq_self_eq_true]
      · rw [addNodeToTree, if_neg hi, treeNodesOk]
        exact ihr hok2 hrest
    · rw [treeNodesOk] at hok2
      simp only [Bool.and_eq_true] at hok2
      obtain ⟨⟨⟨hty2, hall⟩, hcs⟩, hrest⟩ := hok2
      rw [allIdFolder] at hfold
      simp only [Bool.and_eq_true] at hfold
      obtain ⟨⟨hhead, hfcs⟩, hfrest⟩ := hfold
      by_cases hi : nid = pid
      · subst hi
        rw [addNodeToTree, if_pos rfl, treeNodesOk]
        simp only [Bool.and_eq_true]
        refine ⟨⟨⟨hty2, ?_⟩, ?_⟩, ihr hrest hfrest⟩
        · rw [List.all_append]
          simp only [Bool.and_eq_true]
          exact ⟨hall, by
            simp only [List.all_cons, List.all_nil, Bool.and_true, hm, beq_self_eq_true]⟩
        · rw [treeNodesOk_append]
          simp only [Bool.and_eq_true]
          exact ⟨hcs, hok⟩
      · rw [addNodeToTree, if_neg hi, treeNodesOk]
        simp only [Bool.and_eq_true]
        exact ⟨⟨⟨hty2, add_all_parentId _ _ _ _ hall⟩, ihc hcs hfcs⟩, ihr hrest hfrest⟩

theorem treeInv_remove (ns : List FSNode) (i : String) (h : treeInv ns) :
    treeInv (removeNodeFromTree ns i) :=
  ⟨nodup_remove ns i h.1, treeNodesOk_remove ns i h.2⟩

theorem treeInv_add (ns : List FSNode) (pid : String) (m : FSNode)
    (h : treeInv ns) (hfresh : m.id ∉ collectIds ns)
    (hleaf : collectIdsNode m = [m.id])
    (hm : m.parentId = some pid)
    (hmc : m.children = none ∨ (m.children = some [] ∧ m.ty = FileType.FOLDER))
    (hfold : allIdFolder ns pid = true) :
    treeInv (addNodeToTree ns pid m) :=
  ⟨nodup_add ns pid m h.1 hfresh hleaf, treeNodesOk_add m pid hm hmc ns h.2 hfold⟩

theorem lsCmd_state (st : IDEState) (c : Option FSNode) : (lsCmd st c).2 = st := by
  rcases c with _ | cur
  · rfl
  · rcases cur with ⟨i, nm, ty, ct, lg, ch, op, pid, hd⟩
    rcases ch with _ | cs <;> rfl

theorem cdCmd_fileSystem (st : IDEState) (c : Option FSNode) (a : Option String) :
    (cdCmd st c a).2.fileSystem = st.fileSystem := by
  unfold cdCmd
  repeat' split
  all_goals rfl

theorem catCmd_state (st : IDEState) (h : Host) (c : Option FSNode) (a : Option String) :
    (catCmd st h c a).2 = st := by
  unfold catCmd
  repeat' split
  all_goals rfl

theorem mkdirCmd_preserves (st : IDEState) (h : Host) (curOpt : Option FSNode)
    (arg : Option String) (hinv : treeInv st.fileSystem)
    (hcond : ∀ cur x, curOpt = some cur → arg = some x → x ≠ "" →
      allIdFolder st.fileSystem cur.id = true ∧
        (cur.id ++ "_" ++ x) ∉ collectIds st.fileSystem) :
    treeInv (mkdirCmd st h curOpt arg).2.fileSystem := by
  unfold mkdirCmd
  split
  · exact hinv
  · rename_i x
    split
    · exact hinv
    · rename_i hx
      split
      · exact hinv
      · rename_i cur
        split
        · split
          · rename_i u
            obtain ⟨hfold, hfresh⟩ := hcond cur x rfl rfl hx
            exact treeInv_add _ _ _ hinv hfresh
              (by simp [collectIdsNode, collectIds, FSNode.id, FSNode.childrenD,
                FSNode.children])
              (by simp [FSNode.parentId]) (Or.inr (by simp [FSNode.children, FSNode.ty]))
              hfold
          · exact hinv
        · obtain ⟨hfold, hfresh⟩ := hcond cur x rfl rfl hx
          exact treeInv_add _ _ _ hinv hfresh
            (by simp [collectIdsNode, collectIds, FSNode.id, FSNode.childrenD,
              FSNode.children])
            (by simp [FSNode.parentId]) (Or.inr (by simp [FSNode.children, FSNode.ty]))
            hfold

theorem touchCmd_preserves (st : IDEState) (h : Host) (curOpt : Option FSNode)
    (arg : Option String) (hinv : treeInv st.fileSystem)
    (hcond : ∀ cur x, curOpt = some cur → arg = some x → x ≠ "" →
      allIdFolder st.fileSystem cur.id = true ∧
        (cur.id ++ "_" ++ x) ∉ collectIds st.fileSystem) :
    treeInv (touchCmd st h curOpt arg).2.fileSystem := by
  unfold touchCmd
  split
  · exact hinv
  · rename_i x
    split
    · exact hinv
    · rename_i hx
      split
      · exact hinv
      · rename_i cur
        split
        · split
          · rename_i u
            obtain ⟨hfold, hfresh⟩ := hcond cur x rfl rfl hx
            exact treeInv_add _ _ _ hinv hfresh
              (by simp [collectIdsNode, collectIds, FSNode.id, FSNode.childrenD,
                FSNode.children])
              (by simp [FSNode.parentId]) (Or.inl (by simp [FSNode.children]))
              hfold
          · exact hinv
        · obtain ⟨hfold, hfresh⟩ := hcond cur x rfl rfl hx
          exact treeInv_add _ _ _ hinv hfresh
            (by simp [collectIdsNode, collectIds, FSNode.id, FSNode.childrenD,
              FSNode.children])
            (by simp [FSNode.parentId]) (Or.inl (by simp [FSNode.children]))
            hfold

theorem rmCmd_preserves (st : IDEState) (h : Host) (curOpt : Option FSNode)
    (arg : Option String) (hinv : treeInv st.fileSystem) :
    treeInv (rmCmd st h curOpt arg).2.fileSystem := by
  unfold rmCmd
  split
  · exact hinv
  · split
    · exact hinv
    · split
      · exact hinv
      · split
        · split
          · exact treeInv_remove _ _ hinv
          · exact hinv
        · exact treeInv_remove _ _ hinv

theorem createOkCond_spec (st : IDEState) (parts : List String)
    (hcond : createOkCond st parts = true) (cur : FSNode) (x : String)
    (hcur : currentDirNode st = some cur) (hx : parts[1]? = some x) (hxne : x ≠ "")
    (hcmd : (parts.headD "" == "mkdir" || parts.headD "" == "touch" ||
      parts.headD "" == "code") = true) :
    allIdFolder st.fileSystem cur.id = true ∧
      (cur.id ++ "_" ++ x) ∉ collectIds st.fileSystem := by
  unfold createOkCond at hcond
  have hxb : (x == "") = false := by simp [hxne]
  simp only [hx, hcur, hcmd, hxb, strTruthy, Bool.not_false, Bool.and_self, Bool.true_and,
    Bool.and_true, if_true, ite_true, Bool.and_eq_true, decide_eq_true_eq] at hcond
  exact hcond

theorem execBody_preserves (st : IDEState) (h : Host) (curOpt : Option FSNode)
    (command : String) (arg : Option String) (parts : List String)
    (hinv : treeInv st.fileSystem)
    (hcond : (command = "mkdir" ∨ command = "touch" ∨ command = "code") →
      ∀ cur x, curOpt = some cur → arg = some x → x ≠ "" →
        allIdFolder st.fileSystem cur.id = true ∧
          (cur.id ++ "_" ++ x) ∉ collectIds st.fileSystem) :
    treeInv (execBody st h curOpt command arg parts).2.fileSystem := by
  rw [execBody]
  by_cases h1 : (curOpt.isNone && !(command == "ls")) = true
  · rw [if_pos h1]; exact hinv
  · rw [if_neg h1]
    by_cases h2 : (command == "ls") = true
    · rw [if_pos h2, lsCmd_state]; exact hinv
    · rw [if_neg h2]
      by_cases h3 : (command == "pwd") = true
      · rw [if_pos h3]; exact hinv
      · rw [if_neg h3]
        by_cases h4 : (command == "cd") = true
        · rw [if_pos h4]
          have hfs := cdCmd_fileSystem st curOpt arg
          rw [hfs]; exact hinv
        · rw [if_neg h4]
          by_cases h5 : (command == "mkdir") = true
          · rw [if_pos h5]
            exact mkdirCmd_preserves st h curOpt arg hinv
              (hcond (Or.inl (by simpa using h5)))
          · rw [if_neg h5]
            by_cases h6 : (command == "touch" || command == "code") = true
            · rw [if_pos h6]
              refine touchCmd_preserves st h curOpt arg hinv (hcond ?_)
              rcases Bool.or_eq_true _ _ |>.mp h6 with hA | hB
              · exact Or.inr (Or.inl (by simpa using hA))
              · exact Or.inr (Or.inr (by simpa using hB))
            · rw [if_neg h6]
              by_cases h7 : (command == "rm") = true
              · rw [if_pos h7]
                exact rmCmd_preserves st h curOpt arg hinv
              · rw [if_neg h7]
                by_cases h8 : (command == "cat") = true
                · rw [if_pos h8, catCmd_state]; exact hinv
                · rw [if_neg h8]
                  by_cases h9 : (command == "clear") = true
                  · rw [if_pos h9]; exact hinv
                  · rw [if_neg h9]
                    by_cases h10 : (command == "npm") = true
                    · rw [if_pos h10]; exact hinv
                    · rw [if_neg h10]
                      by_cases h11 : (command == "echo") = true
                      · rw [if_pos h11]; exact hinv
                      · rw [if_neg h11]; exact hinv

theorem execParts_preserves (st : IDEState) (h : Host) (parts : List String)
    (hinv : treeInv st.fileSystem) (hcond : createOkCond st parts = true) :
    treeInv (execParts st h parts).2.fileSystem := by
  rw [execParts]
  apply execBody_preserves st h _ _ _ _ hinv
  intro hcmd cur x hcur hx hxne
  apply createOkCond_spec st parts hcond cur x hcur hx hxne
  rcases hcmd with hc | hc | hc <;> simp_all

theorem execSeq_preserves (cmds : List TermCmd) : ∀ st : IDEState,
    treeInv st.fileSystem → okSeq st cmds = true →
    treeInv (execSeq st cmds).fileSystem := by
  induction cmds with
  | nil => intro st hinv _; exact hinv
  | cons ph rest ih =>
    intro st hinv hok
    rcases ph with ⟨p, h⟩
    rw [okSeq] at hok
    simp only [Bool.and_eq_true] at hok
    rw [execSeq]
    exact ih _ (execParts_preserves st h p hinv hok.1) hok.2

theorem findNode_id (ns : List FSNode) : ∀ i n, findNode ns i = some n → n.id = i := by
  induction ns using forestInd with
  | hnil => intro i n h; simp [findNode] at h
  | hcons nd rest ihc ihr =>
    intro i n h
    rcases nd with ⟨nid, nm, ty, ct, lg, ch, op, pid, hdl⟩
    simp only [FSNode.childrenD, FSNode.children, Option.getD_some, Option.getD_none] at ihc
    rcases ch with _ | cs
    · rw [findNode] at h
      by_cases hi : nid = i
      · rw [if_pos hi] at h
        cases h
        simpa [FSNode.id] using hi
      · rw [if_neg hi] at h
        exact ihr i n h
    · rw [findNode] at h
      by_cases hi : nid = i
      · rw [if_pos hi] at h
        cases h
        simpa [FSNode.id] using hi
      · rw [if_neg hi] at h
        rcases hcs : findNode cs i with _ | f
        · rw [hcs] at h
          exact ihr i n h
        · rw [hcs] at h
          cases h
          exact ihc i _ hcs

theorem subIds_mem (ns : List FSNode) :
    ∀ t, t ∈ allNodes ns → ∀ d, d ∈ collectIdsNode t → d ∈ collectIds ns := by
  induction ns using forestInd with
  | hnil => intro t ht; simp [allNodes] at ht
  | hcons n rest ihc ihr =>
    intro t ht d hdm
    rw [allNodes_cons] at ht
    rw [collectIds_cons]
    rcases List.mem_cons.mp ht with h | h
    · subst h
      exact List.mem_append_left _ hdm
    · rcases List.mem_append.mp h with h2 | h2
      · refine List.mem_append_left _ ?_
        unfold collectIdsNode
        exact List.mem_cons_of_mem _ (ihc t h2 d hdm)
      · exact List.mem_append_right _ (ihr t h2 d hdm)

theorem id_mem_collectIdsNode (t : FSNode) : t.id ∈ collectIdsNode t := by
  unfold collectIdsNode
  exact List.mem_cons_self _ _

theorem findNode_eq_none (ns : List FSNode) :
    ∀ i, i ∉ collectIds ns → findNode ns i = none := by
  induction ns using forestInd with
  | hnil => intro i _; simp [findNode]
  | hcons n rest ihc ihr =>
    intro i hni
    rw [collectIds_cons] at hni
    simp only [List.mem_append, not_or] at hni
    obtain ⟨hn1, hn2⟩ := hni
    rcases n with ⟨nid, nm, ty, ct, lg, ch, op, pid, hdl⟩
    simp only [FSNode.childrenD, FSNode.children, Option.getD_some, Option.getD_none] at ihc
    unfold collectIdsNode at hn1
    simp only [FSNode.id, FSNode.childrenD, FSNode.children, List.mem_cons, not_or] at hn1
    obtain ⟨hne, hnc⟩ := hn1
    rcases ch with _ | cs <;>
      simp only [Option.getD_some, Option.getD_none] at ihc hnc
    · rw [findNode, if_neg (fun hh => hne hh.symm)]
      exact ihr i hn2
    · rw [findNode, if_neg (fun hh => hne hh.symm)]
      rw [ihc i hnc]
      exact ihr i hn2

/- After removing the subtree of a node t that occurs in a duplicate-free
   forest, no id of that subtree is left anywhere in the forest. -/
theorem remove_kills (ns : List FSNode) :
    ∀ t d, (collectIds ns).Nodup → t ∈ allNodes ns → d ∈ collectIdsNode t →
      d ∉ collectIds (removeNodeFromTree ns t.id) := by
  induction ns using forestInd with
  | hnil => intro t d _ hmem _; simp [allNodes] at hmem
  | hcons n rest ihc ihr =>
    intro t d hnd hmem hdm
    rw [collectIds_cons] at hnd
    rw [allNodes_cons] at hmem
    rcases n with ⟨nid, nm, ty, ct, lg, ch, op, pid, hdl⟩
    simp only [FSNode.childrenD, FSNode.children, Option.getD_some, Option.getD_none] at ihc hmem hnd ⊢
    rcases ch with _ | cs <;>
      simp only [Option.getD_some, Option.getD_none] at ihc hmem hnd
    · -- children absent
      unfold collectIdsNode at hnd
      simp only [FSNode.id, FSNode.childrenD, FSNode.children, Option.getD_none,
        collectIds, List.nil_append, List.singleton_append] at hnd
      rw [List.nodup_cons] at hnd
      obtain ⟨hn1, hn2⟩ := hnd
      rcases List.mem_cons.mp hmem with heq | hmr
      · subst heq
        unfold collectIdsNode at hdm
        simp only [FSNode.id, FSNode.childrenD, FSNode.children, Option.getD_none,
          collectIds, List.mem_singleton] at hdm
        subst hdm
        rw [removeNodeFromTree]
        simp only [FSNode.id]
        rw [if_pos trivial]
        intro hcontra
        exact hn1 ((collectIds_remove_sublist rest _).subset hcontra)
      · simp only [allNodes, List.nil_append] at hmr
        have hdr : d ∈ collectIds rest := subIds_mem rest t hmr d hdm
        by_cases hni : nid = t.id
        · rw [removeNodeFromTree, if_pos hni]
          exact ihr t d hn2 hmr hdm
        · rw [removeNodeFromTree, if_neg hni]
          rw [collectIds]
          intro hcontra
          rcases List.mem_cons.mp hcontra with hceq | hcr
          · exact hn1 (hceq ▸ hdr)
          · exact ihr t d hn2 hmr hdm hcr
    · -- children present
      unfold collectIdsNode at hnd
      simp only [FSNode.id, FSNode.childrenD, FSNode.children, Option.getD_some] at hnd
      rw [List.cons_append, List.nodup_cons, List.nodup_append] at hnd
      obtain ⟨hnidn, hcsnd, hrestnd, hdisj⟩ := hnd
      simp only [List.mem_append, not_or] at hnidn
      obtain ⟨hnidcs, hnidrest⟩ := hnidn
      rcases List.mem_cons.mp hmem with heq | hmr
      · subst heq
        unfold collectIdsNode at hdm
        simp only [FSNode.id, FSNode.childrenD, FSNode.children, Option.getD_some,
          List.mem_cons] at hdm
        rw [removeNodeFromTree]
        simp only [FSNode.id]
        rw [if_pos trivial]
        intro hcontra
        have hdr : d ∈ collectIds rest :=
          (collectIds_remove_sublist rest _).subset hcontra
        rcases hdm with hdeq | hdcs
        · exact hnidrest (hdeq ▸ hdr)
        · exact hdisj hdcs hdr
      · rcases List.mem_append.mp hmr with hmc | hmrr
        · have hdc : d ∈ collectIds cs := subIds_mem cs t hmc d hdm
          by_cases hni : nid = t.id
          · exfalso
            have : t.id ∈ collectIds cs :=
              subIds_mem cs t hmc t.id (id_mem_collectIdsNode t)
            exact hnidcs (hni ▸ this)
          · rw [removeNodeFromTree, if_neg hni]
            rw [collectIds]
            intro hcontra
            rcases List.mem_cons.mp hcontra with hceq | hcr
            · exact hnidcs (hceq ▸ hdc)
            · rcases List.mem_append.mp hcr with hc1 | hc2
              · exact ihc t d hcsnd hmc hdm hc1
              · exact hdisj hdc ((collectIds_remove_sublist rest _).subset hc2)
        · have hdr : d ∈ collectIds rest := subIds_mem rest t hmrr d hdm
          by_cases hni : nid = t.id
          · exfalso
            have : t.id ∈ collectIds rest :=
              subIds_mem rest t hmrr t.id (id_mem_collectIdsNode t)
            exact hnidrest (hni ▸ this)
          · rw [removeNodeFromTree, if_neg hni]
            rw [collectIds]
            intro hcontra
            rcases List.mem_cons.mp hcontra with hceq | hcr
            · exact hnidrest (hceq ▸ hdr)
            · rcases List.mem_append.mp hcr with hc1 | hc2
              · exact hdisj ((collectIds_remove_sublist cs _).subset hc1) hdr
              · exact ihr t d hrestnd hmrr hdm hc2

theorem findContent_of_firstMatch_none (ns : List FSNode) :
    ∀ fn, firstMatch ns fn = none → findContent ns fn = none := by
  induction ns using forestInd with
  | hnil => intro fn _; simp [findContent]
  | hcons n rest ihc ihr =>
    intro fn hfm
    rcases n with ⟨nid, nm, ty, ct, lg, ch, op, pid, hdl⟩
    simp only [FSNode.childrenD, FSNode.children] at ihc
    rcases ch with _ | cs <;> simp only [Option.getD_some, Option.getD_none] at ihc
    · rw [firstMatch] at hfm
      rw [findContent]
      by_cases hcnd : nm = fn ∧ ct ≠ none
      · rw [if_pos hcnd] at hfm
        rw [if_pos hcnd]
        exact hfm
      · rw [if_neg hcnd] at hfm
        rw [if_neg hcnd]
        exact ihr fn hfm
    · rw [firstMatch] at hfm
      rw [findContent]
      by_cases hcnd : nm = fn ∧ ct ≠ none
      · rw [if_pos hcnd] at hfm
        rw [if_pos hcnd]
        exact hfm
      · rw [if_neg hcnd] at hfm
        rw [if_neg hcnd]
        rcases hfc : firstMatch cs fn with _ | c
        · simp only [hfc] at hfm
          rw [ihc fn hfc]
          exact ihr fn hfm
        · simp only [hfc] at hfm
          exact absurd hfm (by simp)

theorem findContent_of_firstMatch_some (ns : List FSNode) :
    ∀ fn c, firstMatch ns fn = some c → c ≠ "" → findContent ns fn = some c := by
  induction ns using forestInd with
  | hnil => intro fn c h _; simp [firstMatch] at h
  | hcons n rest ihc ihr =>
    intro fn c hfm hcne
    rcases n with ⟨nid, nm, ty, ct, lg, ch, op, pid, hdl⟩
    simp only [FSNode.childrenD, FSNode.children] at ihc
    rcases ch with _ | cs <;> simp only [Option.getD_some, Option.getD_none] at ihc
    · rw [firstMatch] at hfm
      rw [findContent]
      by_cases hcnd : nm = fn ∧ ct ≠ none
      · rw [if_pos hcnd] at hfm
        rw [if_pos hcnd]
        exact hfm
      · rw [if_neg hcnd] at hfm
        rw [if_neg hcnd]
        exact ihr fn c hfm hcne
    · rw [firstMatch] at hfm
      rw [findContent]
      by_cases hcnd : nm = fn ∧ ct ≠ none
      · rw [if_pos hcnd] at hfm
        rw [if_pos hcnd]
        exact hfm
      · rw [if_neg hcnd] at hfm
        rw [if_neg hcnd]
        rcases hfc : firstMatch cs fn with _ | c2
        · simp only [hfc] at hfm
          rw [findContent_of_firstMatch_none cs fn hfc]
          exact ihr fn c hfm hcne
        · simp only [hfc, Option.some.injEq] at hfm
          subst hfm
          rw [ihc fn c2 hfc hcne]
          simp only [hcne, ite_false, if_neg]

theorem mem_allNodes_self (l : List FSNode) : ∀ c ∈ l, c ∈ allNodes l := by
  induction l with
  | nil => intro c hc; simp at hc
  | cons n rest ih =>
    intro c hc
    rw [allNodes_cons]
    rcases List.mem_cons.mp hc with h | h
    · exact h ▸ List.mem_cons_self _ _
    · exact List.mem_cons_of_mem _ (List.mem_append_right _ (ih c h))

theorem mem_allNodes_child (ns : List FSNode) :
    ∀ p, p ∈ allNodes ns → ∀ c ∈ p.childrenD, c ∈ allNodes ns := by
  induction ns using forestInd with
  | hnil => intro p hp; simp [allNodes] at hp
  | hcons n rest ihc ihr =>
    intro p hp c hc
    rw [allNodes_cons] at hp ⊢
    rcases List.mem_cons.mp hp with h | h
    · subst h
      exact List.mem_cons_of_mem _
        (List.mem_append_left _ (mem_allNodes_self _ c hc))
    · rcases List.mem_append.mp h with h2 | h2
      · exact List.mem_cons_of_mem _ (List.mem_append_left _ (ihc p h2 c hc))
      · exact List.mem_cons_of_mem _ (List.mem_append_right _ (ihr p h2 c hc))

theorem findNode_mem (ns : List FSNode) :
    ∀ i n, findNode ns i = some n → n ∈ allNodes ns := by
  induction ns using forestInd with
  | hnil => intro i n h; simp [findNode] at h
  | hcons nd rest ihc ihr =>
    intro i n h
    rcases nd with ⟨nid, nm, ty, ct, lg, ch, op, pid, hdl⟩
    simp only [FSNode.childrenD, FSNode.children] at ihc
    rcases ch with _ | cs <;> simp only [Option.getD_some, Option.getD_none] at ihc <;>
      rw [allNodes_cons]
    · rw [findNode] at h
      by_cases hi : nid = i
      · rw [if_pos hi] at h
        cases h
        exact List.mem_cons_self _ _
      · rw [if_neg hi] at h
        exact List.mem_cons_of_mem _ (List.mem_append_right _ (ihr i n h))
    · rw [findNode] at h
      by_cases hi : nid = i
      · rw [if_pos hi] at h
        cases h
        exact List.mem_cons_self _ _
      · rw [if_neg hi] at h
        rcases hcs : findNode cs i with _ | f
        · rw [hcs] at h
          exact List.mem_cons_of_mem _ (List.mem_append_right _ (ihr i n h))
        · rw [hcs] at h
          cases h
          refine List.mem_cons_of_mem _ (List.mem_append_left _ ?_)
          simpa using ihc i _ hcs

theorem findNode_some_mem_ids (ns : List FSNode) (i : String) (n : FSNode)
    (h : findNode ns i = some n) : i ∈ collectIds ns := by
  by_contra hni
  rw [findNode_eq_none ns i hni] at h
  cases h

theorem nativeIdsOk_iff (p : String) (l : List FSNode) :
    nativeIdsOk p l = true ↔
      ∀ n ∈ l, n.id = p ++ "_" ++ n.name ∧
        nativeIdsOk (p ++ "_" ++ n.name) n.childrenD = true := by
  induction l with
  | nil => simp [nativeIdsOk]
  | cons n rest ih =>
    rcases n with ⟨nid, nm, ty, ct, lg, ch, op, pid, hdl⟩
    rcases ch with _ | cs <;>
      simp [nativeIdsOk, ih, FSNode.id, FSNode.name, FSNode.childrenD, FSNode.children,
        List.mem_cons]

theorem nativeIdsOk_sort (p : String) (l : List FSNode)
    (h : nativeIdsOk p l = true) : nativeIdsOk p (sortNodes l) = true := by
  rw [nativeIdsOk_iff] at h ⊢
  intro n hn
  exact h n ((List.mergeSort_perm l nodeLE).mem_iff.mp hn)

theorem appendUnderscore_ne_empty (p nm : String) : p ++ "_" ++ nm ≠ "" := by
  intro hcontra
  have hlen : (p ++ "_" ++ nm).length = p.length + 1 + nm.length := by
    have h1 : ("_" : String).length = 1 := rfl
    simp [String.length_append, h1]
  rw [hcontra] at hlen
  simp at hlen
  omega

theorem processEntries_idsOk (es : List HostEntry) :
    ∀ p, p ≠ "" → nativeIdsOk p (processEntries es (some p)) = true := by
  induction es using hostEntriesInd with
  | hnil => intro p _; simp [processEntries, nativeIdsOk]
  | hfile nm rest ihr =>
    intro p hp
    rw [processEntries]
    rw [nativeIdsOk_iff]
    intro n hn
    rcases List.mem_cons.mp hn with h | h
    · subst h
      refine ⟨by simp [entryId, FSNode.id, FSNode.name, hp], ?_⟩
      simp [FSNode.childrenD, FSNode.children, FSNode.name, nativeIdsOk]
    · exact (nativeIdsOk_iff p _).mp (ihr p hp) n h
  | hdir nm sub rest ihs ihr =>
    intro p hp
    rw [processEntries]
    rw [nativeIdsOk_iff]
    intro n hn
    rcases List.mem_cons.mp hn with h | h
    · subst h
      refine ⟨by simp [entryId, FSNode.id, FSNode.name, hp], ?_⟩
      simp only [FSNode.childrenD, FSNode.children, FSNode.name, Option.getD_some,
        entryId, hp, if_neg]
      exact nativeIdsOk_sort _ _ (ihs (p ++ "_" ++ nm) (appendUnderscore_ne_empty p nm))
    · exact (nativeIdsOk_iff p _).mp (ihr p hp) n h

theorem processDirectoryHandle_idsOk (es : List HostEntry) (p : String) (hp : p ≠ "") :
    nativeIdsOk p (processDirectoryHandle es (some p)) = true :=
  nativeIdsOk_sort p _ (processEntries_idsOk es p hp)

theorem flatIdsOk_append (p : String) (l1 l2 : List FSNode) :
    flatIdsOk p (l1 ++ l2) = (flatIdsOk p l1 && flatIdsOk p l2) := by
  induction l1 with
  | nil => simp [flatIdsOk]
  | cons n rest ih =>
    rcases n with ⟨nid, nm, ty, ct, lg, ch, op, pid, hdl⟩
    rcases ch with _ | cs <;> simp [flatIdsOk, ih, Bool.and_assoc]

theorem flatIdOne_file_append (pid fn : String) :
    flatIdsOk.flatIdOne pid (pid ++ "_" ++ fn) fn FileType.FILE = true := by
  unfold flatIdsOk.flatIdOne
  by_cases hp : pid = "root"
  · subst hp
    simp
  · simp [hp]

theorem flatIdOne_folder (pid fn : String) :
    flatIdsOk.flatIdOne pid (getOrCreateId pid fn) fn FileType.FOLDER = true := by
  unfold flatIdsOk.flatIdOne getOrCreateId
  by_cases hp : pid = "root"
  · subst hp
    simp
  · simp [hp]

theorem insertIntoNodes_flatOk :
    ∀ (parts : List String) (ns : List FSNode) (pid fn ctn lg : String),
      flatIdsOk pid ns = true →
      flatIdsOk pid (insertIntoNodes ns pid parts fn ctn lg) = true := by
  intro parts
  induction parts with
  | nil =>
    intro ns pid fn ctn lg hok
    rw [insertIntoNodes, flatIdsOk_append]
    simp only [Bool.and_eq_true]
    refine ⟨hok, ?_⟩
    simp only [flatIdsOk, Bool.and_eq_true]
    exact ⟨flatIdOne_file_append pid fn, trivial⟩
  | cons fname restParts ihp =>
    intro ns
    induction ns with
    | nil =>
      intro pid fn ctn lg _
      rw [insertIntoNodes]
      simp only [flatIdsOk, Bool.and_eq_true]
      refine ⟨⟨flatIdOne_folder pid fname, ?_⟩, trivial⟩
      exact ihp [] (getOrCreateId pid fname) fn ctn lg (by rw [flatIdsOk])
    | cons n tail ihn =>
      intro pid fn ctn lg hok
      rcases n with ⟨nid, nm, ty, ct, lg0, ch, op, pid0, hdl⟩
      rw [insertIntoNodes]
      by_cases hmatch : nm = fname ∧ ty = FileType.FOLDER
      · rw [if_pos hmatch]
        rcases ch with _ | cs
        · simp only [flatIdsOk, Bool.and_eq_true] at hok ⊢
          obtain ⟨h1, h2⟩ := hok
          exact ⟨⟨h1, ihp [] nid fn ctn lg (by rw [flatIdsOk])⟩, h2⟩
        · simp only [flatIdsOk, Bool.and_eq_true, Option.getD_some] at hok ⊢
          obtain ⟨⟨h1, h2⟩, h3⟩ := hok
          exact ⟨⟨h1, ihp cs nid fn ctn lg h2⟩, h3⟩
      · rw [if_neg hmatch]
        rcases ch with _ | cs
        · simp only [flatIdsOk, Bool.and_eq_true] at hok ⊢
          obtain ⟨h1, h2⟩ := hok
          exact ⟨h1, ihn pid fn ctn lg h2⟩
        · simp only [flatIdsOk, Bool.and_eq_true] at hok ⊢
          obtain ⟨⟨h1, h2⟩, h3⟩ := hok
          exact ⟨⟨h1, h2⟩, ihn pid fn ctn lg h3⟩

theorem processInputFilesChildren_flatOk (files : List InputFile) :
    flatIdsOk "root" (processInputFilesChildren files) = true := by
  unfold processInputFilesChildren
  have hstep : ∀ (acc : List FSNode) (f : InputFile), flatIdsOk "root" acc = true →
      flatIdsOk "root" (processOneInput acc f) = true := by
    intro acc f hok
    unfold processOneInput
    rcases hp : f.path with _ | ⟨seg, segs⟩
    · rw [flatIdsOk_append]
      simp only [Bool.and_eq_true]
      refine ⟨hok, ?_⟩
      simp only [flatIdsOk, Bool.and_eq_true]
      refine ⟨?_, trivial⟩
      unfold flatIdsOk.flatIdOne
      simp
    · exact insertIntoNodes_flatOk _ _ _ _ _ _ hok
  have hgen : ∀ (fs : List InputFile) (acc : List FSNode), flatIdsOk "root" acc = true →
      flatIdsOk "root" (fs.foldl processOneInput acc) = true := by
    intro fs
    induction fs with
    | nil => intro acc h; exact h
    | cons f rest ih =>
      intro acc h
      rw [List.foldl_cons]
      exact ih _ (hstep acc f h)
  exact hgen files [] (by rw [flatIdsOk])

theorem add_id_mem (m : FSNode) :
    ∀ (ns : List FSNode) (pid : String), pid ∈ collectIds ns →
      m.id ∈ collectIds (addNodeToTree ns pid m) := by
  intro ns
  induction ns using forestInd with
  | hnil => intro pid h; simp [collectIds] at h
  | hcons n rest ihc ihr =>
    intro pid hpid
    rw [collectIds_cons] at hpid
    rcases n with ⟨nid, nm, ty, ct, lg, ch, op, pid0, hdl⟩
    simp only [FSNode.childrenD, FSNode.children] at ihc
    rcases ch with _ | cs <;> simp only [Option.getD_some, Option.getD_none] at ihc
    · by_cases hi : nid = pid
      · subst hi
        rw [addNodeToTree, if_pos rfl]
        rw [collectIds_cons]
        refine List.mem_append_left _ ?_
        unfold collectIdsNode
        simp only [FSNode.id, FSNode.childrenD, FSNode.children, Option.getD_some]
        refine List.mem_cons_of_mem _ ?_
        rw [collectIds_single]
        exact id_mem_collectIdsNode m
      · rw [addNodeToTree, if_neg hi]
        rw [collectIds]
        refine List.mem_cons_of_mem _ ?_
        apply ihr pid
        unfold collectIdsNode at hpid
        simp only [FSNode.id, FSNode.childrenD, FSNode.children, Option.getD_none,
          collectIds, List.singleton_append, List.mem_cons, List.mem_append] at hpid
        rcases hpid with h | h
        · exact absurd h.symm hi
        · exact h
    · by_cases hi : nid = pid
      · subst hi
        rw [addNodeToTree, if_pos rfl]
        rw [collectIds_cons]
        refine List.mem_append_left _ ?_
        unfold collectIdsNode
        simp only [FSNode.id, FSNode.childrenD, FSNode.children, Option.getD_some]
        refine List.mem_cons_of_mem _ ?_
        rw [collectIds_append, collectIds_single]
        exact List.mem_append_right _ (id_mem_collectIdsNode m)
      · rw [addNodeToTree, if_neg hi]
        rw [collectIds]
        unfold collectIdsNode at hpid
        simp only [FSNode.id, FSNode.childrenD, FSNode.children, Option.getD_some,
          List.mem_cons, List.mem_append] at hpid
        rcases hpid with (h | h) | h
        · exact absurd h.symm hi
        · exact List.mem_cons_of_mem _ (List.mem_append_left _ (ihc pid h))
        · exact List.mem_cons_of_mem _ (List.mem_append_right _ (ihr pid h))

theorem execParts_ls (st : IDEState) (h : Host) :
    execParts st h ["ls"] = lsCmd st (currentDirNode st) := by
  rw [execParts]
  show execBody st h (currentDirNode st) "ls" none ["ls"] = _
  rw [execBody]
  simp only [beq_self_eq_true, Bool.not_true, Bool.and_false, Bool.false_eq_true, if_false]
  rw [if_pos (by decide)]

theorem execParts_pwd (st : IDEState) (h : Host) (cur : FSNode)
    (hcur : currentDirNode st = some cur) :
    execParts st h ["pwd"] = ("/" ++ String.intercalate "/" st.termPath, st) := by
  rw [execParts, hcur]
  show execBody st h (some cur) "pwd" none ["pwd"] = _
  rw [execBody]
  simp only [Option.isNone_some, Bool.false_and, Bool.false_eq_true, if_false]
  rw [if_neg (by decide), if_pos (by decide)]

theorem execParts_mkdir (st : IDEState) (h : Host) (name : String) (cur : FSNode)
    (hcur : currentDirNode st = some cur) :
    execParts st h ["mkdir", name] = mkdirCmd st h (some cur) (some name) := by
  rw [execParts, hcur]
  show execBody st h (some cur) "mkdir" (some name) ["mkdir", name] = _
  rw [execBody]
  simp only [Option.isNone_some, Bool.false_and, Bool.false_eq_true, if_false]
  rw [if_neg (by decide), if_neg (by decide), if_neg (by decide), if_pos (by decide)]

theorem execParts_touch (st : IDEState) (h : Host) (name : String) (cur : FSNode)
    (hcur : currentDirNode st = some cur) :
    execParts st h ["touch", name] = touchCmd st h (some cur) (some name) := by
  rw [execParts, hcur]
  show execBody st h (some cur) "touch" (some name) ["touch", name] = _
  rw [execBody]
  simp only [Option.isNone_some, Bool.false_and, Bool.false_eq_true, if_false]
  rw [if_neg (by decide), if_neg (by decide), if_neg (by decide), if_neg (by decide),
    if_pos (by decide)]

theorem execParts_code (st : IDEState) (h : Host) (name : String) (cur : FSNode)
    (hcur : currentDirNode st = some cur) :
    execParts st h ["code", name] = touchCmd st h (some cur) (some name) := by
  rw [execParts, hcur]
  show execBody st h (some cur) "code" (some name) ["code", name] = _
  rw [execBody]
  simp only [Option.isNone_some, Bool.false_and, Bool.false_eq_true, if_false]
  rw [if_neg (by decide), if_neg (by decide), if_neg (by decide), if_neg (by decide),
    if_pos (by decide)]

theorem execParts_rm (st : IDEState) (h : Host) (name : String) (cur : FSNode)
    (hcur : currentDirNode st = some cur) :
    execParts st h ["rm", name] = rmCmd st h (some cur) (some name) := by
  rw [execParts, hcur]
  show execBody st h (some cur) "rm" (some name) ["rm", name] = _
  rw [execBody]
  simp only [Option.isNone_some, Bool.false_and, Bool.false_eq_true, if_false]
  rw [if_neg (by decide), if_neg (by decide), if_neg (by decide), if_neg (by decide),
    if_neg (by decide), if_pos (by decide)]

theorem execParts_cat (st : IDEState) (h : Host) (name : String) (cur : FSNode)
    (hcur : currentDirNode st = some cur) :
    execParts st h ["cat", name] = catCmd st h (some cur) (some name) := by
  rw [execParts, hcur]
  show execBody st h (some cur) "cat" (some name) ["cat", name] = _
  rw [execBody]
  simp only [Option.isNone_some, Bool.false_and, Bool.false_eq_true, if_false]
  rw [if_neg (by decide), if_neg (by decide), if_neg (by decide), if_neg (by decide),
    if_neg (by decide), if_neg (by decide), if_pos (by decide)]

/-- C1: when the rm command resolves its argument to a child of the
current directory, the current directory is Native (has a host
capability) and the host removeEntry fails, the command returns the
error string and the whole interpreter state, in particular the node
tree, is returned unchanged: no node is removed and the
subtree-removal operation is never invoked. -/
theorem c1_rm_native_failure_aborts (st : IDEState) (h : Host) (cur target : FSNode)
    (name e : String)
    (hcur : currentDirNode st = some cur) (hname : name ≠ "")
    (htgt : cur.childrenD.find? (fun c => c.name == name) = some target)
    (hhandle : cur.handle = true)
    (herr : h.removeEntry = Except.error e) :
    execParts st h ["rm", name] = ("Error deleting from disk: " ++ e, st) := by
  rw [execParts_rm st h name cur hcur, rmCmd]
  rw [if_neg hname]
  simp [optChildren, optHandle, htgt, hhandle, herr]

/-- Witness for C1 on a concrete Native directory holding one file: a
failing host delete yields the error string and leaves the state
untouched. -/
theorem c1_witness :
    execParts stNative hostFailAll ["rm", "a.txt"] =
      ("Error deleting from disk: boom", stNative) := by
  have hcur : currentDirNode stNative = some rootNative := by
    simp [currentDirNode, stNative, findNode, rootNative]
  have htgt : rootNative.childrenD.find? (fun c => c.name == "a.txt") = some fileNative := by
    simp [rootNative, fileNative, FSNode.childrenD, FSNode.children, FSNode.name]
  exact c1_rm_native_failure_aborts stNative hostFailAll rootNative fileNative "a.txt"
    "boom" hcur (by decide) htgt (by simp [rootNative, FSNode.handle])
    (by simp [hostFailAll])

/-- C4 corrected: when the current directory is Native and the host
create fails, mkdir, touch and code do not fall back to creating a
Virtual node; each returns the corresponding disk error string and
leaves the interpreter state, in particular the node tree,
unchanged. -/
theorem c4_native_create_failure_returns_error (st : IDEState) (h : Host) (cur : FSNode)
    (name e : String)
    (hcur : currentDirNode st = some cur) (hname : name ≠ "")
    (hhandle : cur.handle = true) :
    (h.createDir = Except.error e →
      execParts st h ["mkdir", name] = ("Error creating directory on disk: " ++ e, st)) ∧
    (h.createFile = Except.error e →
      execParts st h ["touch", name] = ("Error creating file on disk: " ++ e, st)) ∧
    (h.createFile = Except.error e →
      execParts st h ["code", name] = ("Error creating file on disk: " ++ e, st)) := by
  refine ⟨?_, ?_, ?_⟩ <;> intro herr
  · rw [execParts_mkdir st h name cur hcur, mkdirCmd]
    rw [if_neg hname]
    simp [hhandle, herr]
  · rw [execParts_touch st h name cur hcur, touchCmd]
    rw [if_neg hname]
    simp [hhandle, herr]
  · rw [execParts_code st h name cur hcur, touchCmd]
    rw [if_neg hname]
    simp [hhandle, herr]

/-- Witness for C4 on a concrete Native directory with a failing host:
mkdir returns the disk error and the state is unchanged, so no Virtual
folder appears. -/
theorem c4_witness :
    execParts stNative hostFailAll ["mkdir", "x"] =
      ("Error creating directory on disk: boom", stNative) ∧
    execParts stNative hostFailAll ["touch", "x"] =
      ("Error creating file on disk: boom", stNative) := by
  have hcur : currentDirNode stNative = some rootNative := by
    simp [currentDirNode, stNative, findNode, rootNative]
  have h4 := c4_native_create_failure_returns_error stNative hostFailAll rootNative "x"
    "boom" hcur (by decide) (by simp [rootNative, FSNode.handle])
  exact ⟨h4.1 (by simp [hostFailAll]), h4.2.1 (by simp [hostFailAll])⟩

/-- C4 counterexample: with a Native current directory and a failing
host create, the claim predicts a Virtual folder under the current
directory; the code instead returns an error string and the tree still
holds no node with the id the created child would get. -/
theorem c4_counterexample :
    (execParts stNative hostFailAll ["mkdir", "x"]).2 = stNative ∧
    "root_x" ∉ collectIds (execParts stNative hostFailAll ["mkdir", "x"]).2.fileSystem := by
  have hcur : currentDirNode stNative = some rootNative := by
    simp [currentDirNode, stNative, findNode, rootNative]
  have hrun : execParts stNative hostFailAll ["mkdir", "x"] =
      ("Error creating directory on disk: boom", stNative) := by
    rw [execParts_mkdir stNative hostFailAll "x" rootNative hcur, mkdirCmd]
    rw [if_neg (by decide)]
    simp [rootNative, FSNode.handle, hostFailAll]
  rw [hrun]
  refine ⟨rfl, ?_⟩
  simp [stNative, rootNative, fileNative, collectIds, FSNode.id]

/-- C7 corrected: pwd returns the slash-joined raw ids of the
working-directory stack (the deterministic ids, not the stripped local
names); the prefix stripping exists only in the prompt name
derivation. -/
theorem c7_pwd_raw_ids (st : IDEState) (h : Host) (cur : FSNode)
    (hcur : currentDirNode st = some cur) :
    execParts st h ["pwd"] = ("/" ++ String.intercalate "/" st.termPath, st) :=
  execParts_pwd st h cur hcur

/-- Witness for C7: with the stack root, root_src the pwd output joins
the raw ids. -/
theorem c7_witness :
    execParts stInSrc hostOk ["pwd"] = ("/root/root_src", stInSrc) := by
  have hcur : currentDirNode stInSrc = some folderSrc := by
    simp [currentDirNode, stInSrc, findNode, rootWithSrc, folderSrc]
  have h := c7_pwd_raw_ids stInSrc hostOk folderSrc hcur
  rw [h]
  rfl

/-- C7 counterexample: after cd src from the root the stack is root,
root_src; pwd returns /root/root_src, the raw id join, not the
name-derived /root/src the claim describes. -/
theorem c7_counterexample :
    (execParts stInSrc hostOk ["pwd"]).1 = "/root/root_src" ∧
    "/root/root_src" ≠ "/root/src" := by
  have hcur : currentDirNode stInSrc = some folderSrc := by
    simp [currentDirNode, stInSrc, findNode, rootWithSrc, folderSrc]
  rw [execParts_pwd stInSrc hostOk folderSrc hcur]
  exact ⟨rfl, by decide⟩

/-- C10: cat resolves its argument only among FILE children; when the
current directory holds a FOLDER of the given name but no FILE of that
name, cat returns the File not found error. -/
theorem c10_cat_folder_not_file (st : IDEState) (h : Host) (cur : FSNode) (name : String)
    (hcur : currentDirNode st = some cur) (hname : name ≠ "")
    ( _hfolder : ∃ c ∈ cur.childrenD, c.name = name ∧ c.ty = FileType.FOLDER)
    (hnofile : ∀ c ∈ cur.childrenD, ¬(c.name = name ∧ c.ty = FileType.FILE)) :
    execParts st h ["cat", name] = ("File not found: " ++ name, st) := by
  rw [execParts_cat st h name cur hcur, catCmd]
  rw [if_neg hname]
  have hfindnone : (optChildren (some cur)).find?
      (fun c => c.name == name && decide (c.ty = FileType.FILE)) = none := by
    rw [List.find?_eq_none]
    intro c hc
    simp only [optChildren] at hc
    have hnc := hnofile c hc
    simp only [Bool.and_eq_true, beq_iff_eq, decide_eq_true_eq]
    intro hcontra
    exact hnc ⟨hcontra.1, hcontra.2⟩
  simp [hfindnone]

/-- Witness for C10: cat on a name that exists only as a FOLDER child
returns the File not found error. -/
theorem c10_witness :
    execParts stWithDocs hostOk ["cat", "docs"] = ("File not found: docs", stWithDocs) := by
  have hcur : currentDirNode stWithDocs = some rootWithDocs := by
    simp [currentDirNode, stWithDocs, findNode, rootWithDocs]
  refine c10_cat_folder_not_file stWithDocs hostOk rootWithDocs "docs" hcur (by decide)
    ⟨folderDocs, ?_, by simp [folderDocs, FSNode.name], by simp [folderDocs, FSNode.ty]⟩ ?_
  · simp [rootWithDocs, FSNode.childrenD, FSNode.children]
  · intro c hc
    simp [rootWithDocs, FSNode.childrenD, FSNode.children] at hc
    subst hc
    simp [folderDocs, FSNode.ty]

/-- C3 corrected: ls renders the children of the current directory in
their stored order (FOLDER entries bracketed, entries joined by two
spaces); it does not sort, so the folders-first lexicographic form of
the output holds only when the stored order already has it, as the
native ingestion sort produces. -/
theorem c3_ls_stored_order (st : IDEState) (h : Host) (cur : FSNode) (cs : List FSNode)
    (hcur : currentDirNode st = some cur) (hch : cur.children = some cs) :
    execParts st h ["ls"] =
      (String.intercalate "  "
        (cs.map (fun c => if c.ty = FileType.FOLDER then "[" ++ c.name ++ "]" else c.name)),
       st) := by
  rw [execParts_ls st h, hcur, lsCmd]
  simp [hch]

/-- Witness for C3: with the FOLDER b stored before the FILE a the
listing is the bracketed folder then the file. -/
theorem c3_witness : execParts stSorted hostOk ["ls"] = ("[b]  a", stSorted) := by
  have hcur : currentDirNode stSorted = some rootSorted := by
    simp [currentDirNode, stSorted, findNode, rootSorted]
  have h := c3_ls_stored_order stSorted hostOk rootSorted [folderNodeB, fileNodeA] hcur
    (by simp [rootSorted, FSNode.children])
  rw [h]
  simp only [folderNodeB, fileNodeA, FSNode.ty, FSNode.name, List.map_cons, List.map_nil]
  rfl

/-- C3 counterexample: the same two children stored with the FILE a
first make ls return a then the bracketed b, so the claimed output,
independent of the stored order, is wrong. -/
theorem c3_counterexample :
    (execParts stUnsorted hostOk ["ls"]).1 = "a  [b]" ∧ "a  [b]" ≠ "[b]  a" := by
  have hcur : currentDirNode stUnsorted = some rootUnsorted := by
    simp [currentDirNode, stUnsorted, findNode, rootUnsorted]
  rw [execParts_ls stUnsorted hostOk, hcur, lsCmd]
  refine ⟨?_, by decide⟩
  simp only [rootUnsorted, folderNodeB, fileNodeA, FSNode.children, FSNode.ty, FSNode.name,
    List.map_cons, List.map_nil]
  rfl

/-- C5 corrected: for a text-like FILE child, cat with resident content
returns the first 500 characters with the ellipsis appended exactly
when the content is longer; but when the content is loaded lazily
through a Native handle, the result is the bare 500-character prefix
with no ellipsis appended. -/
theorem c5_cat_truncation (st : IDEState) (h : Host) (cur f : FSNode) (name : String)
    (hcur : currentDirNode st = some cur) (hname : name ≠ "")
    (hfind : cur.childrenD.find?
      (fun c => c.name == name && decide (c.ty = FileType.FILE)) = some f)
    (hnb : isMediaOrBinary f.language = false) :
    (∀ c, f.content = some c →
      execParts st h ["cat", name] =
        (c.take 500 ++ (if c.length > 500 then "..." else ""), st)) ∧
    (∀ t, f.handle = true → f.content = none → h.readText = Except.ok t →
      execParts st h ["cat", name] = (t.take 500, st)) := by
  constructor
  · intro c hc
    rw [execParts_cat st h name cur hcur, catCmd]
    rw [if_neg hname]
    simp only [optChildren, hfind]
    rw [if_neg (by simp [hnb])]
    rw [if_neg (by simp [hc])]
    simp [hc]
  · intro t hh hcn hread
    rw [execParts_cat st h name cur hcur, catCmd]
    rw [if_neg hname]
    simp only [optChildren, hfind]
    rw [if_neg (by simp [hnb])]
    rw [if_pos ⟨hh, hcn⟩]
    simp [hread]

/-- Witness for C5: a 5-character resident file prints whole with no
ellipsis, and a lazily read Native file prints the host text truncated
to 500 characters. -/
theorem c5_witness :
    execParts stCat hostReadShort ["cat", "r.txt"] = ("hello", stCat) ∧
    execParts stCat hostReadShort ["cat", "l.txt"] = ("abc", stCat) := by
  have hcur : currentDirNode stCat = some rootCat := by
    simp [currentDirNode, stCat, findNode, rootCat]
  constructor
  · have h := (c5_cat_truncation stCat hostReadShort rootCat fileResident "r.txt" hcur
      (by decide)
      (by simp [rootCat, fileResident, fileLazy, FSNode.childrenD, FSNode.children,
        FSNode.name, FSNode.ty])
      (by simp [fileResident, FSNode.language, isMediaOrBinary])).1 "hello"
      (by simp [fileResident, FSNode.content])
    rw [h]
    have h1 : ("hello".take 500 : String) = "hello" := by
      rw [String.take_eq]
      rfl
    have h2 : ¬ ("hello".length > 500) := by decide
    rw [h1, if_neg h2]
    rfl
  · have h := (c5_cat_truncation stCat hostReadShort rootCat fileLazy "l.txt" hcur
      (by decide)
      (by simp [rootCat, fileResident, fileLazy, FSNode.childrenD, FSNode.children,
        FSNode.name, FSNode.ty])
      (by simp [fileLazy, FSNode.language, isMediaOrBinary])).2 "abc"
      (by simp [fileLazy, FSNode.handle]) (by simp [fileLazy, FSNode.content])
      (by simp [hostReadShort])
    rw [h]
    have hv : ("abc".take 500 : String) = "abc" := by
      rw [String.take_eq]
      rfl
    rw [hv]

/-- C5 counterexample: a Native file whose lazily loaded text has 501
characters makes cat return exactly the 500-character prefix without
the ellipsis the claim requires for content that exceeds 500
characters. -/
theorem c5_counterexample :
    execParts stLazyOnly hostReadLong ["cat", "l.txt"] =
      (String.mk (List.replicate 500 'a'), stLazyOnly) ∧
    String.mk (List.replicate 500 'a') ≠ String.mk (List.replicate 500 'a') ++ "..." := by
  have hcur : currentDirNode stLazyOnly =
      some (FSNode.mk "root" "Project" FileType.FOLDER none none (some [fileLazy])
        (some true) none false) := by
    simp [currentDirNode, stLazyOnly, findNode]
  have hrun : execParts stLazyOnly hostReadLong ["cat", "l.txt"] =
      ((String.mk (List.replicate 501 'a')).take 500, stLazyOnly) := by
    rw [execParts_cat stLazyOnly hostReadLong "l.txt" _ hcur, catCmd]
    rw [if_neg (by decide)]
    have hfind : (optChildren (some (FSNode.mk "root" "Project" FileType.FOLDER none none
        (some [fileLazy]) (some true) none false))).find?
        (fun c => c.name == "l.txt" && decide (c.ty = FileType.FILE)) = some fileLazy := by
      simp [optChildren, fileLazy, FSNode.childrenD, FSNode.children, FSNode.name, FSNode.ty]
    simp only [hfind]
    rw [if_neg (by simp [fileLazy, FSNode.language, isMediaOrBinary])]
    rw [if_pos ⟨by simp [fileLazy, FSNode.handle], by simp [fileLazy, FSNode.content]⟩]
    simp [hostReadLong]
  have htake : (String.mk (List.replicate 501 'a')).take 500 =
      String.mk (List.replicate 500 'a') := by
    rw [String.take_eq]
    show String.mk ((List.replicate 501 'a').take 500) = _
    rw [List.take_replicate]
    have hmin : min 500 501 = 500 := by decide
    rw [hmin]
  constructor
  · rw [hrun, htake]
  · intro hcontra
    have hlen := congrArg String.length hcontra
    rw [String.length_append] at hlen
    have h500 : (String.mk (List.replicate 500 'a')).length = 500 := by
      show (List.replicate 500 'a').length = 500
      simp
    have h3 : ("..." : String).length = 3 := rfl
    rw [h500, h3] at hlen
    omega

/-- C6 corrected: rm on a FOLDER child of a virtual current directory
removes the folder and every descendant from subsequent findNode
lookups (given a duplicate-free, well-formed tree), but the open-tab
list is filtered only by the id of the folder itself: descendant ids
are not evicted. -/
theorem c6_rm_folder_subtree (st : IDEState) (h : Host) (cur target : FSNode)
    (name : String)
    (hinv : treeInv st.fileSystem)
    (hcur : currentDirNode st = some cur) (hname : name ≠ "")
    (hfind : cur.childrenD.find? (fun c => c.name == name) = some target)
    (_hty : target.ty = FileType.FOLDER)
    (hvirt : cur.handle = false) :
    (∀ d ∈ collectIdsNode target,
        findNode (execParts st h ["rm", name]).2.fileSystem d = none) ∧
    (execParts st h ["rm", name]).2.openTabs =
      st.openTabs.filter (fun t => !(t.id == target.id)) ∧
    (execParts st h ["rm", name]).1 = "" := by
  have hrun : execParts st h ["rm", name] =
      ("", { st with fileSystem := removeNodeFromTree st.fileSystem target.id,
                     openTabs := st.openTabs.filter (fun t => !(t.id == target.id)) }) := by
    rw [execParts_rm st h name cur hcur, rmCmd]
    rw [if_neg hname]
    simp [optChildren, optHandle, hfind, hvirt]
  rw [hrun]
  refine ⟨?_, rfl, rfl⟩
  intro d hd
  have hcurmem : cur ∈ allNodes st.fileSystem := by
    unfold currentDirNode at hcur
    rcases hlast : st.termPath.getLast? with _ | curId
    · rw [hlast] at hcur
      cases hcur
    · rw [hlast] at hcur
      exact findNode_mem st.fileSystem curId cur hcur
  have htmem : target ∈ allNodes st.fileSystem :=
    mem_allNodes_child st.fileSystem cur hcurmem target (List.mem_of_find?_eq_some hfind)
  have hkill := remove_kills st.fileSystem target d hinv.1 htmem hd
  exact findNode_eq_none _ d hkill

/-- Witness for C6: removing the folder F erases both F and its nested
file from findNode, while the open-tab list is filtered only by the
folder id. -/
theorem c6_witness :
    findNode (execParts stWithF hostOk ["rm", "F"]).2.fileSystem "root_F" = none ∧
    findNode (execParts stWithF hostOk ["rm", "F"]).2.fileSystem "root_F_c.txt" = none ∧
    (execParts stWithF hostOk ["rm", "F"]).2.openTabs =
      stWithF.openTabs.filter (fun t => !(t.id == folderF.id)) := by
  have hinv : treeInv stWithF.fileSystem := by
    constructor
    · show (collectIds stWithF.fileSystem).Nodup
      have hc : collectIds stWithF.fileSystem = ["root", "root_F", "root_F_c.txt"] := by
        simp [stWithF, rootWithF, folderF, fileInFolder, collectIds, FSNode.id,
          FSNode.childrenD, FSNode.children]
      rw [hc]
      decide
    · simp [stWithF, rootWithF, folderF, fileInFolder, treeNodesOk, FSNode.id, FSNode.ty,
        FSNode.parentId, FSNode.childrenD, FSNode.children]
  have hcur : currentDirNode stWithF = some rootWithF := by
    simp [currentDirNode, stWithF, findNode, rootWithF]
  have hfind : rootWithF.childrenD.find? (fun c => c.name == "F") = some folderF := by
    simp [rootWithF, folderF, FSNode.childrenD, FSNode.children, FSNode.name]
  have h := c6_rm_folder_subtree stWithF hostOk rootWithF folderF "F" hinv hcur
    (by decide) hfind (by simp [folderF, FSNode.ty]) (by simp [rootWithF, FSNode.handle])
  refine ⟨h.1 "root_F" ?_, h.1 "root_F_c.txt" ?_, h.2.1⟩
  · simp [collectIdsNode, folderF, fileInFolder, collectIds, FSNode.id, FSNode.childrenD,
      FSNode.children]
  · simp [collectIdsNode, folderF, fileInFolder, collectIds, FSNode.id, FSNode.childrenD,
      FSNode.children]

/-- C6 counterexample: after rm on the folder F, the nested file is no
longer found in the tree, yet its tab entry survives in the open-tab
list: only the id of the folder itself was evicted, refuting the claim
that the ids of all removed nodes are evicted. -/
theorem c6_counterexample :
    Tab.mk "root_F_c.txt" "c.txt" false ∈ (execParts stWithF hostOk ["rm", "F"]).2.openTabs ∧
    findNode (execParts stWithF hostOk ["rm", "F"]).2.fileSystem "root_F_c.txt" = none := by
  have hcur : currentDirNode stWithF = some rootWithF := by
    simp [currentDirNode, stWithF, findNode, rootWithF]
  have hfind : rootWithF.childrenD.find? (fun c => c.name == "F") = some folderF := by
    simp [rootWithF, folderF, FSNode.childrenD, FSNode.children, FSNode.name]
  have hrun : execParts stWithF hostOk ["rm", "F"] =
      ("", { stWithF with
              fileSystem := removeNodeFromTree stWithF.fileSystem folderF.id,
              openTabs := stWithF.openTabs.filter (fun t => !(t.id == folderF.id)) }) := by
    rw [execParts_rm stWithF hostOk "F" rootWithF hcur, rmCmd]
    rw [if_neg (by decide)]
    have hv : rootWithF.handle = false := by simp [rootWithF, FSNode.handle]
    simp [optChildren, optHandle, hfind, hv]
  rw [hrun]
  constructor
  · simp [stWithF, folderF, FSNode.id, Tab.mk.injEq]
  · simp [stWithF, rootWithF, folderF, fileInFolder, removeNodeFromTree, findNode,
      FSNode.id, FSNode.childrenD, FSNode.children]

/-- C8 corrected: terminal creates and native directory enumeration
assign each node the id parent id, underscore, local name (the root
keeping the sentinel id root); but flat-list ingestion gives a folder
directly under root the bare name as its id (and a pathless file its
bare file name), not root underscore name, with the parent underscore
name rule holding only below the top level and for path-carrying
files. -/
theorem c8_id_scheme :
    (∀ (st : IDEState) (h : Host) (cur : FSNode) (name : String),
      currentDirNode st = some cur → name ≠ "" → cur.handle = false →
      (cur.id ++ "_" ++ name) ∈ collectIds (execParts st h ["mkdir", name]).2.fileSystem ∧
      (cur.id ++ "_" ++ name) ∈ collectIds (execParts st h ["touch", name]).2.fileSystem) ∧
    (∀ (es : List HostEntry) (p : String), p ≠ "" →
      nativeIdsOk p (processDirectoryHandle es (some p)) = true) ∧
    (∀ files : List InputFile, flatIdsOk "root" (processInputFilesChildren files) = true) := by
  refine ⟨?_, fun es p hp => processDirectoryHandle_idsOk es p hp,
    fun files => processInputFilesChildren_flatOk files⟩
  intro st h cur name hcur hname hvirt
  have hpidmem : cur.id ∈ collectIds st.fileSystem := by
    unfold currentDirNode at hcur
    rcases hlast : st.termPath.getLast? with _ | curId
    · rw [hlast] at hcur
      cases hcur
    · rw [hlast] at hcur
      have hid := findNode_id st.fileSystem curId cur hcur
      rw [hid]
      exact findNode_some_mem_ids st.fileSystem curId cur hcur
  constructor
  · rw [execParts_mkdir st h name cur hcur, mkdirCmd]
    rw [if_neg hname]
    simp only [hvirt, Bool.false_eq_true, if_false]
    exact add_id_mem _ st.fileSystem cur.id hpidmem
  · rw [execParts_touch st h name cur hcur, touchCmd]
    rw [if_neg hname]
    simp only [hvirt, Bool.false_eq_true, if_false]
    exact add_id_mem _ st.fileSystem cur.id hpidmem

/-- Witness for C8: a virtual mkdir under the empty root yields a node
with id root underscore x, and the ingestion checkers accept a concrete
native listing and flat file list. -/
theorem c8_witness :
    ("root" ++ "_" ++ "x") ∈
      collectIds (execParts stVirt hostOk ["mkdir", "x"]).2.fileSystem ∧
    nativeIdsOk "root"
      (processDirectoryHandle [HostEntry.dir "src" [HostEntry.file "a.txt"]]
        (some "root")) = true ∧
    flatIdsOk "root"
      (processInputFilesChildren [⟨"a.txt", ["src", "a.txt"], "", some "hi"⟩]) = true := by
  have hcur : currentDirNode stVirt = some rootEmptyVirtual := by
    simp [currentDirNode, stVirt, findNode, rootEmptyVirtual]
  have hid : rootEmptyVirtual.id = "root" := by simp [rootEmptyVirtual, FSNode.id]
  refine ⟨?_, c8_id_scheme.2.1 [HostEntry.dir "src" [HostEntry.file "a.txt"]] "root"
    (by decide), c8_id_scheme.2.2 [⟨"a.txt", ["src", "a.txt"], "", some "hi"⟩]⟩
  have h := (c8_id_scheme.1 stVirt hostOk rootEmptyVirtual "x" hcur (by decide)
    (by simp [rootEmptyVirtual, FSNode.handle])).1
  rw [hid] at h
  exact h

/-- C8 counterexample: flat ingestion of the single path src slash
a.txt produces the id list root, src, src underscore a.txt: the
top-level folder src that sits directly under the root (whose id is
root) has id src, not root underscore src as the claim requires. -/
theorem c8_counterexample :
    collectIds (processInputFiles [⟨"a.txt", ["src", "a.txt"], "", some "hi"⟩]) =
      ["root", "src", "src_a.txt"] ∧
    "root_src" ∉
      collectIds (processInputFiles [⟨"a.txt", ["src", "a.txt"], "", some "hi"⟩]) ∧
    "src" ≠ "root" ++ "_" ++ "src" := by
  have hrun : collectIds (processInputFiles [⟨"a.txt", ["src", "a.txt"], "", some "hi"⟩]) =
      ["root", "src", "src_a.txt"] := by
    simp [processInputFiles, processInputFilesChildren, processOneInput, insertIntoNodes,
      getOrCreateId, collectIds, FSNode.id, FSNode.childrenD, FSNode.children]
  refine ⟨hrun, ?_, by decide⟩
  rw [hrun]
  decide

/-- C9 corrected: getFileContent returns the content of the first
depth-first name match with defined content when that content is
nonempty, and the empty string when there is no match at all; an
empty-string content coming back from a nested match is discarded by a
JavaScript truthiness test, so the search continues and a later node of
the same name can supply the result. -/
theorem c9_getFileContent_first_nonempty (ns : List FSNode) (fn : String) :
    (firstMatch ns fn = none → getFileContent ns fn = "") ∧
    (∀ c, firstMatch ns fn = some c → c ≠ "" → getFileContent ns fn = c) := by
  constructor
  · intro hnone
    unfold getFileContent
    rw [findContent_of_firstMatch_none ns fn hnone]
  · intro c hsome hcne
    unfold getFileContent
    rw [findContent_of_firstMatch_some ns fn c hsome hcne]
    show (if c = "" then "" else c) = c
    rw [if_neg hcne]

/-- Witness for C9: the first match holds the nonempty content hi
there, and getFileContent returns it. -/
theorem c9_witness : getFileContent fsHello "x" = "hi there" := by
  have hfm : firstMatch fsHello "x" = some "hi there" := by
    simp [fsHello, fileHello, firstMatch, FSNode.name, FSNode.content]
  exact (c9_getFileContent_first_nonempty fsHello "x").2 "hi there" hfm (by decide)

/-- C9 counterexample: the first depth-first match for x has defined
empty content, yet getFileContent returns the content of the later
match, later, not the empty string the claim requires. -/
theorem getFileContent_of_findContent (ns : List FSNode) (fn c : String)
    (h : findContent ns fn = some c) (hc : c ≠ "") : getFileContent ns fn = c := by
  unfold getFileContent
  rw [h]
  exact if_neg hc

theorem c9_counterexample :
    firstMatch fsC9 "x" = some "" ∧
    getFileContent fsC9 "x" = "later" ∧ ("later" : String) ≠ "" := by
  refine ⟨?_, ?_, by decide⟩
  · simp [fsC9, folderA, fileXEmpty, fileXLater, firstMatch, FSNode.name, FSNode.content]
  · have hfc : findContent fsC9 "x" = some "later" := by
      simp [fsC9, folderA, fileXEmpty, fileXLater, findContent, FSNode.name, FSNode.content]
    exact getFileContent_of_findContent fsC9 "x" "later" hfc (by decide)

/-- C2 corrected: the invariant that every node id is unique and every
children-carrying node is a FOLDER whose children name it as parent is
preserved by a terminal command sequence only under a side condition:
whenever a create command (mkdir, touch, code) runs with a resolvable
current directory, every node carrying the current directory id must be
a FOLDER and the deterministic id of the new child must be fresh.  The
unconditional claim fails: addNodeToTree never checks for an existing
child of the same name, so running mkdir x twice duplicates the id
root_x. -/
theorem c2_invariants_preserved (st : IDEState) (cmds : List TermCmd)
    (hinv : treeInv st.fileSystem) (hok : okSeq st cmds = true) :
    treeInv (execSeq st cmds).fileSystem :=
  execSeq_preserves cmds st hinv hok

/-- Witness for C2: from the single virtual root, mkdir x then mkdir y
satisfies the side condition and the resulting tree keeps unique ids
and well-formed parent links. -/
theorem c2_witness :
    treeInv stVirt.fileSystem ∧
    okSeq stVirt [(["mkdir", "x"], hostOk), (["mkdir", "y"], hostOk)] = true ∧
    treeInv (execSeq stVirt [(["mkdir", "x"], hostOk), (["mkdir", "y"], hostOk)]).fileSystem := by
  have h1 : treeInv stVirt.fileSystem := by
    constructor
    · simp [uniqueIds, stVirt, rootEmptyVirtual, collectIds, collectIdsNode, FSNode.id,
        FSNode.childrenD, FSNode.children]
    · simp [stVirt, rootEmptyVirtual, treeNodesOk]
  have h2 : okSeq stVirt [(["mkdir", "x"], hostOk), (["mkdir", "y"], hostOk)] = true := by
    simp [okSeq, createOkCond, execSeq, execParts, execBody, currentDirNode, findNode,
      strTruthy, allIdFolder, collectIds, collectIdsNode, mkdirCmd, addNodeToTree,
      stVirt, hostOk, rootEmptyVirtual, FSNode.id, FSNode.handle, FSNode.childrenD,
      FSNode.children, FSNode.ty]
  exact ⟨h1, h2, c2_invariants_preserved stVirt _ h1 h2⟩

/-- C2 counterexample: running mkdir x twice in the virtual root
produces the id list root, root_x, root_x, so id uniqueness is lost;
the claim without the freshness side condition is false. -/
theorem c2_counterexample :
    ¬ uniqueIds (execSeq stVirt
      [(["mkdir", "x"], hostOk), (["mkdir", "x"], hostOk)]).fileSystem := by
  have h : collectIds (execSeq stVirt
      [(["mkdir", "x"], hostOk), (["mkdir", "x"], hostOk)]).fileSystem
      = ["root", "root_x", "root_x"] := by
    simp [execSeq, execParts, execBody, currentDirNode, findNode, mkdirCmd, addNodeToTree,
      collectIds, collectIdsNode, stVirt, hostOk, rootEmptyVirtual, FSNode.id, FSNode.handle,
      FSNode.childrenD, FSNode.children]
  unfold uniqueIds
  rw [h]
  decide
